import Mathlib

/-!
# Verification of the Hostel Room Backend allocation engine

This file is a shallow embedding, in Lean 4, of the resource-allocation engine of
the Hostel_Room_Backend repository (`allocationEngine.js`: `runAllocation`,
`allocateBed`, `addToWaitlist`) together with proofs of the behavioural claims
made about it.

Modelling conventions:
* The PostgreSQL store (see the migration DDL: `CREATE TYPE ... AS ENUM`,
  `TIMESTAMP(3)`, `JSONB`, and the engine's Postgres-style raw locking query) is
  modelled as an explicit record of tables (`DB`), passed and returned by every
  operation.  Row ids are modelled as `Nat` (abstract identities; the DB's `TEXT`
  ids only matter through their equality and ordering).
* Prisma's `orderBy: { id: 'asc' }` / `orderBy: [{ priorityCategory: 'desc' },
  { appliedAt: 'asc' }]` are modelled by sorting with `List.insertionSort`.
  Note on `priorityCategory: 'desc'`: the column `priority_category` is a
  nullable `TEXT` column and Prisma emits a plain `ORDER BY ... DESC`; on
  PostgreSQL `NULL` sorts as larger than every value, so `DESC` places the
  `NULL` rows first, followed by the non-null category strings in descending
  string order.  The comparator `prioLt` below encodes exactly that.
* Store failures are injected through an explicit oracle (`List Fault`): each
  constructor names one fallible operation of the JS code (the `IN_PROGRESS`
  update, the allocation transaction as a whole, the waitlist queries, the
  SMTP send inside the notifier, the batch-level audit insert).  An empty
  oracle is a fault-free execution.
* The notification sender (`email.js`, whose source is the second document
  concatenated into `src/src/services/allocationWorker.js`) and the audit-log
  helper (`auditLog.js`, the second document concatenated into
  `src/src/__tests__/auth.test.js`) are translated from those sources: both
  wrap their work in try/catch, log the failure and return normally —
  `sendEmail` returns false on failure, `createAuditLog` swallows the store
  error and appends no row.  Neither ever raises back into the engine.
-/

namespace HostelAlloc

/-- The `RoomStatus` enum of the Prisma schema. -/
inductive RoomStatus where
  | AVAILABLE
  | OCCUPIED
  | MAINTENANCE
  | RESERVED
deriving DecidableEq, Repr

/-- The `ApplicationStatus` enum of the Prisma schema. -/
inductive AppStatus where
  | PENDING
  | IN_PROGRESS
  | ALLOCATED
  | REJECTED
  | WAITLISTED
deriving DecidableEq, Repr

/-- A row of the `blocks` table (id, hostel_id). -/
structure Block where
  id : Nat
  hostelId : Nat
deriving DecidableEq, Repr

/-- A row of the `rooms` table (the fields the engine reads). -/
structure Room where
  id : Nat
  blockId : Nat
  status : RoomStatus
deriving DecidableEq, Repr

/-- A row of the `beds` table. -/
structure Bed where
  id : Nat
  roomId : Nat
  bedNumber : Nat
  occupiedBy : Option Nat
deriving DecidableEq, Repr

/-- The `preferences` JSON object of an application.  Both fields may be
absent, as in the JS code (`preferences.preferredHostels || []`,
`preferences.roomType || ...`). -/
structure Preferences where
  preferredHostels : Option (List Nat)
  roomType : Option String
deriving DecidableEq, Repr

/-- A row of the `applications` table.  `preferences` may be null/absent. -/
structure Application where
  id : Nat
  studentId : Nat
  preferences : Option Preferences
  status : AppStatus
  appliedAt : Nat
  priorityCategory : Option String
deriving DecidableEq, Repr

/-- A row of the `allocations` table. -/
structure Allocation where
  id : Nat
  applicationId : Nat
  studentId : Nat
  roomId : Nat
  bedId : Nat
  allocatedBy : Nat
deriving DecidableEq, Repr

/-- A row of the `audit_logs` table (the fields the engine writes; the
batch-level log's `details` payload is dropped). -/
structure AuditLog where
  actorId : Nat
  action : String
  targetType : String
  targetId : String
  detailsApplicationId : Option Nat
  detailsBedId : Option Nat
  automated : Bool
deriving DecidableEq, Repr

/-- A row of the `waitlist_entries` table (`application_id` is unique). -/
structure WaitlistEntry where
  applicationId : Nat
  rank : Int
  hostelId : Option Nat
  roomType : Option String
deriving DecidableEq, Repr

/-- An emitted notification (not a DB row; recorded so that theorems can talk
about delivery outcomes).  `delivered` is false when the send failed and the
failure was logged by the sender. -/
structure NotificationEvent where
  kind : String
  applicationId : Nat
  delivered : Bool
deriving DecidableEq, Repr

/-- The store state: every table the engine touches, plus the notification
event log and a counter used for generated record ids. -/
structure DB where
  blocks : List Block
  rooms : List Room
  beds : List Bed
  applications : List Application
  allocations : List Allocation
  waitlist : List WaitlistEntry
  auditLogs : List AuditLog
  notifications : List NotificationEvent
  nextId : Nat
deriving DecidableEq, Repr

/-- Injected store/notifier failures.  Each constructor names one fallible
operation of the JS engine, tagged with the application being processed. -/
inductive Fault where
  | markInProgress (applicationId : Nat)
  | txAbort (applicationId : Nat)
  | allocNotifyFail (applicationId : Nat)
  | waitlistMaxFail (applicationId : Nat)
  | waitlistUpsertFail (applicationId : Nat)
  | waitlistStatusFail (applicationId : Nat)
  | waitNotifyFail (applicationId : Nat)
  | batchAuditFail
deriving DecidableEq, Repr

/-- Decodes `application.preferences || \x7b\x7d` followed by
`preferences.preferredHostels || []`. -/
def Application.preferredHostelsList (a : Application) : List Nat :=
  match a.preferences with
  | none => []
  | some p => p.preferredHostels.getD []

/-- Decodes `preferences.roomType || null` (used by `addToWaitlist`). -/
def Application.roomTypeOrNull (a : Application) : Option String :=
  match a.preferences with
  | none => none
  | some p => p.roomType

/-- The relation filter `block: { hostelId: { in: preferredHostels } }`:
the bed's room's block must exist and its hostel must be preferred. -/
def hostelMatch (blocks : List Block) (ph : List Nat) (blockId : Nat) : Bool :=
  match blocks.find? (fun blk => decide (blk.id = blockId)) with
  | none => false
  | some blk => ph.contains blk.hostelId

/-- The room filter of `allocateBed`: `status: 'AVAILABLE'`, plus the hostel
filter exactly when the request names at least one preferred hostel. -/
def roomMatch (rooms : List Room) (blocks : List Block) (ph : List Nat) (roomId : Nat) : Bool :=
  match rooms.find? (fun r => decide (r.id = roomId)) with
  | none => false
  | some r =>
      decide (r.status = RoomStatus.AVAILABLE) && (ph.isEmpty || hostelMatch blocks ph r.blockId)

/-- The bed `where` clause of `allocateBed`: `occupiedBy: null, room: <roomMatch>`. -/
def bedCandidate (rooms : List Room) (blocks : List Block) (ph : List Nat) (b : Bed) : Bool :=
  decide (b.occupiedBy = none) && roomMatch rooms blocks ph b.roomId

/-- The `orderBy: { id: 'asc' }` relation on beds. -/
def bedIdLE (b b' : Bed) : Prop :=
  b.id ≤ b'.id

instance : DecidableRel bedIdLE :=
  fun b b' => inferInstanceAs (Decidable (b.id ≤ b'.id))

instance : IsTotal Bed bedIdLE :=
  ⟨fun b b' => Nat.le_total b.id b'.id⟩

instance : IsTrans Bed bedIdLE :=
  ⟨fun _ _ _ h h' => Nat.le_trans h h'⟩

/-- The candidate query of `allocateBed`: free beds in available (and, if
preferences name hostels, preferred-hostel) rooms, ordered by bed id
ascending, limited to 10 (`take: 10`). -/
def findCandidateBeds (db : DB) (app : Application) : List Bed :=
  (((db.beds.filter
      (bedCandidate db.rooms db.blocks app.preferredHostelsList)).insertionSort bedIdLE).take 10)

/-- The raw locking query `SELECT id FROM beds WHERE id = $1 AND occupied_by
IS NULL FOR UPDATE SKIP LOCKED LIMIT 1`, in the engine's (single-transaction)
sequential semantics: the row is obtained iff a bed with this id is currently
unoccupied. -/
def lockQuery (beds : List Bed) (bedId : Nat) : Bool :=
  beds.any (fun b => decide (b.id = bedId) && decide (b.occupiedBy = none))

/-- The candidate loop of `allocateBed`: try to lock each candidate in order,
stopping at the first success. -/
def lockFirstCandidate (beds : List Bed) (cands : List Bed) : Option Bed :=
  cands.find? (fun c => lockQuery beds c.id)

/-- Here `setAppStatus apps id st` is the status-only row update
`application.update` at the given id. -/
def setAppStatus (apps : List Application) (id : Nat) (st : AppStatus) : List Application :=
  apps.map (fun a => if a.id = id then { a with status := st } else a)

/-- The body of the `prisma.$transaction` callback in `allocateBed`:
candidate query, lock loop, then — for the locked bed — the five writes
(bed occupant, application status, waitlist delete, allocation create, audit
create).  Returns `none` when no candidate was found or locked (the callback
returns `null`), otherwise the committed post-state. -/
def allocTx (db : DB) (app : Application) (allocatedBy : Nat) : Option DB :=
  match lockFirstCandidate db.beds (findCandidateBeds db app) with
  | none => none
  | some bed =>
      let beds' := db.beds.map
        (fun b => if b.id = bed.id then { b with occupiedBy := some app.studentId } else b)
      let apps' := setAppStatus db.applications app.id AppStatus.ALLOCATED
      let wl' := db.waitlist.filter (fun w => decide (w.applicationId ≠ app.id))
      let alloc : Allocation :=
        { id := db.nextId, applicationId := app.id, studentId := app.studentId,
          roomId := bed.roomId, bedId := bed.id, allocatedBy := allocatedBy }
      let log : AuditLog :=
        { actorId := allocatedBy, action := "ALLOCATE", targetType := "ALLOCATION",
          targetId := toString db.nextId, detailsApplicationId := some app.id,
          detailsBedId := some bed.id, automated := true }
      some { db with
              beds := beds', applications := apps', waitlist := wl',
              allocations := db.allocations ++ [alloc],
              auditLogs := db.auditLogs ++ [log],
              nextId := db.nextId + 1 }

/-- Translated from `sendAllocationNotification` in `email.js` (its source is
the second document concatenated into `src/src/services/allocationWorker.js`):
it builds the confirmation message and delegates to `sendEmail`, which wraps
the SMTP send in try/catch, logs a failure and returns `false` — it never
raises.  The model records the notification event; `delivered` is the Boolean
`sendEmail` returns (false exactly when the injected fault makes the SMTP
send fail). -/
def sendAllocationNotification (faults : List Fault) (db : DB) (app : Application) : DB :=
  { db with notifications := db.notifications ++
      [{ kind := "ALLOCATION", applicationId := app.id,
         delivered := decide (Fault.allocNotifyFail app.id ∉ faults) }] }

/-- The operation `allocateBed(application, allocatedBy)`: run the transaction (rolled back
wholesale and reported as `false` if it throws, i.e. on a `txAbort` fault);
on commit send the (never-raising) notification; return whether the
transaction committed with a bed bound (`result !== null`). -/
def allocateBed (faults : List Fault) (db : DB) (app : Application) (allocatedBy : Nat) :
    Bool × DB :=
  if Fault.txAbort app.id ∈ faults then
    (false, db)
  else
    match allocTx db app allocatedBy with
    | none => (false, db)
    | some db' => (true, sendAllocationNotification faults db' app)

/-- Maximum rank in a list of waitlist entries (`findFirst` with
`orderBy: { rank: 'desc' }`), `none` when the list is empty. -/
def maxRank : List WaitlistEntry → Option Int
  | [] => none
  | w :: ws =>
      match maxRank ws with
      | none => some w.rank
      | some r => some (max w.rank r)

/-- The `where` clause of the max-rank query in `addToWaitlist`:
`hostelId ? { hostelId } : {}` — with a first preferred hostel the entries of
that hostel, otherwise the EMPTY where-clause, i.e. every entry. -/
def bucketScan (wl : List WaitlistEntry) (hostelId : Option Nat) : List WaitlistEntry :=
  match hostelId with
  | some h => wl.filter (fun w => decide (w.hostelId = some h))
  | none => wl

/-- Computes `newRank = maxRankEntry ? maxRankEntry.rank + 1 : 1`. -/
def newRankFor (wl : List WaitlistEntry) (hostelId : Option Nat) : Int :=
  match maxRank (bucketScan wl hostelId) with
  | none => 1
  | some r => r + 1

/-- The query `waitlistEntry.upsert`: update the rank of the existing entry for this
application, or create a fresh entry. -/
def upsertWaitlist (wl : List WaitlistEntry) (app : Application) (rank : Int)
    (hostelId : Option Nat) (roomType : Option String) : List WaitlistEntry :=
  if wl.any (fun w => decide (w.applicationId = app.id)) then
    wl.map (fun w => if w.applicationId = app.id then { w with rank := rank } else w)
  else
    wl ++ [{ applicationId := app.id, rank := rank, hostelId := hostelId, roomType := roomType }]

/-- Translated from `sendWaitlistNotification` in `email.js` (second document
concatenated into `src/src/services/allocationWorker.js`): like the
allocation notification it delegates to `sendEmail`, whose try/catch logs a
failure and returns `false` without raising. -/
def sendWaitlistNotification (faults : List Fault) (db : DB) (app : Application) : DB :=
  { db with notifications := db.notifications ++
      [{ kind := "WAITLIST", applicationId := app.id,
         delivered := decide (Fault.waitNotifyFail app.id ∉ faults) }] }

/-- The operation `addToWaitlist(application)`: scope bucket from the first preferred
hostel (or none), max-rank query, upsert, status update, notification.  The
returned flag is false when a store fault made one of the three store
operations throw (the state at the throw point is returned — these calls are
NOT wrapped in a transaction). -/
def addToWaitlist (faults : List Fault) (db : DB) (app : Application) : Bool × DB :=
  let hostelId := app.preferredHostelsList.head?
  if Fault.waitlistMaxFail app.id ∈ faults then
    (false, db)
  else
    let rank := newRankFor db.waitlist hostelId
    if Fault.waitlistUpsertFail app.id ∈ faults then
      (false, db)
    else
      let db1 := { db with
        waitlist := upsertWaitlist db.waitlist app rank hostelId app.roomTypeOrNull }
      if Fault.waitlistStatusFail app.id ∈ faults then
        (false, db1)
      else
        let db2 := { db1 with
          applications := setAppStatus db1.applications app.id AppStatus.WAITLISTED }
        (true, sendWaitlistNotification faults db2 app)

/-- Lexicographic (codepoint) comparison of character lists — the order the
store applies to `TEXT` columns. -/
def charListLt : List Char → List Char → Bool
  | _, [] => false
  | [], _ :: _ => true
  | c :: cs, d :: ds =>
      if c.toNat < d.toNat then true
      else if d.toNat < c.toNat then false
      else charListLt cs ds

/-- Lexicographic (codepoint) comparison of strings. -/
def strLt (x y : String) : Bool :=
  charListLt x.data y.data

/-- Models `ORDER BY priority_category DESC` on PostgreSQL, as a strict "comes
first" test: `NULL` sorts as larger than every string, so `DESC` places the
null-category rows first, then non-null categories in descending string
order. -/
def prioLt (a b : Option String) : Bool :=
  match a, b with
  | none, some _ => true
  | some x, some y => strLt y x
  | _, _ => false

/-- The full `orderBy: [{ priorityCategory: 'desc' }, { appliedAt: 'asc' }]`
comparison. -/
def appBefore (a b : Application) : Prop :=
  prioLt a.priorityCategory b.priorityCategory = true ∨
    (a.priorityCategory = b.priorityCategory ∧ a.appliedAt ≤ b.appliedAt)

instance : DecidableRel appBefore :=
  fun a b =>
    inferInstanceAs (Decidable (prioLt a.priorityCategory b.priorityCategory = true ∨
      (a.priorityCategory = b.priorityCategory ∧ a.appliedAt ≤ b.appliedAt)))

/-- The selection query of `runAllocation`: status in `{PENDING, WAITLISTED}`,
ordered by the comparator above. -/
def selectApplications (db : DB) : List Application :=
  (db.applications.filter
    (fun a => decide (a.status = AppStatus.PENDING) || decide (a.status = AppStatus.WAITLISTED))
  ).insertionSort appBefore

/-- The value written by the per-application error handler of
`runAllocation`: `application.status === 'WAITLISTED' ? 'WAITLISTED' :
'PENDING'` (from the pre-run snapshot). -/
def resetStatusValue (app : Application) : AppStatus :=
  if app.status = AppStatus.WAITLISTED then AppStatus.WAITLISTED else AppStatus.PENDING

/-- The run statistics of `runAllocation`. -/
structure RunStats where
  allocated : Nat
  waitlisted : Nat
  errors : Nat
deriving DecidableEq, Repr

/-- The `IN_PROGRESS` mark written by the loop before calling `allocateBed`. -/
def setIP (db : DB) (app : Application) : DB :=
  { db with applications := setAppStatus db.applications app.id AppStatus.IN_PROGRESS }

/-- One iteration of the `for (const application of applications)` loop of
`runAllocation`: mark `IN_PROGRESS`, call `allocateBed`, fall back to
`addToWaitlist` on `false`; on a thrown store error count it and reset the
application's status to its pre-run value. -/
def processOne (faults : List Fault) (allocatedBy : Nat) (acc : RunStats × DB)
    (app : Application) : RunStats × DB :=
  let stats := acc.1
  let db := acc.2
  if Fault.markInProgress app.id ∈ faults then
    ({ stats with errors := stats.errors + 1 },
     { db with applications := setAppStatus db.applications app.id (resetStatusValue app) })
  else
    match allocateBed faults (setIP db app) app allocatedBy with
    | (true, db2) => ({ stats with allocated := stats.allocated + 1 }, db2)
    | (false, db2) =>
        match addToWaitlist faults db2 app with
        | (true, db3) => ({ stats with waitlisted := stats.waitlisted + 1 }, db3)
        | (false, db3) =>
            ({ stats with errors := stats.errors + 1 },
             { db3 with
                applications := setAppStatus db3.applications app.id (resetStatusValue app) })

/-- Translated from `createAuditLog` in `auditLog.js` (its source is the
second document concatenated into `src/src/__tests__/auth.test.js`): it wraps
`prisma.auditLog.create` in try/catch — on a store failure it logs the error
and returns normally WITHOUT appending a row ("audit logging shouldn't break
the main flow").  It never raises. -/
def createAuditLog (faults : List Fault) (db : DB) (actor : Nat)
    (action targetType targetId : String) : DB :=
  if Fault.batchAuditFail ∈ faults then
    db
  else
    { db with auditLogs := db.auditLogs ++
        [{ actorId := actor, action := action, targetType := targetType, targetId := targetId,
           detailsApplicationId := none, detailsBedId := none, automated := false }] }

/-- The operation `runAllocation(allocatedBy)`: select, process each application in order,
then write the batch-level audit record and return the statistics. -/
def runAllocation (faults : List Fault) (db : DB) (allocatedBy : Nat) : RunStats × DB :=
  let apps := selectApplications db
  let r := apps.foldl (processOne faults allocatedBy) (⟨0, 0, 0⟩, db)
  (r.1, createAuditLog faults r.2 allocatedBy "CREATE" "ALLOCATION" "batch")

/-- Status of the (first) application row with the given id. -/
def statusOf (apps : List Application) (id : Nat) : Option AppStatus :=
  (apps.find? (fun a => decide (a.id = id))).map (fun a => a.status)

/-- The same application with the desired room type in its preferences
replaced (used to state that the room type never restricts candidates). -/
def setRoomType (a : Application) (rt : Option String) : Application :=
  { a with preferences := a.preferences.map (fun p => { p with roomType := rt }) }

/-- Rank of the (first) waitlist entry of the given application. -/
def rankOf (wl : List WaitlistEntry) (id : Nat) : Option Int :=
  (wl.find? (fun w => decide (w.applicationId = id))).map (fun w => w.rank)

/-- Two application rows that agree on everything except possibly the
status (the engine only ever rewrites statuses). -/
def statusOnly (r r' : Application) : Prop :=
  r'.id = r.id ∧ r'.studentId = r.studentId ∧ r'.preferences = r.preferences ∧
    r'.appliedAt = r.appliedAt ∧ r'.priorityCategory = r.priorityCategory

/-- Row-wise `statusOnly` between two application tables. -/
def AppsRel (apps apps' : List Application) : Prop :=
  List.Forall₂ statusOnly apps apps'

/-- One bed evolving under the engine: identity and room unchanged, and a
bed that is free afterwards was already free before (occupancy only grows
during allocation). -/
def bedLe (b b' : Bed) : Prop :=
  b'.id = b.id ∧ b'.roomId = b.roomId ∧ b'.bedNumber = b.bedNumber ∧
    (b'.occupiedBy = none → b.occupiedBy = none)

/-- Row-wise `bedLe` between two bed tables. -/
def BedsLe (l l' : List Bed) : Prop :=
  List.Forall₂ bedLe l l'

/-- Mutual exclusion of Allocation and WaitlistEntry: no application is
referenced by both tables. -/
def MutexInv (db : DB) : Prop :=
  ∀ al ∈ db.allocations, ∀ w ∈ db.waitlist, al.applicationId ≠ w.applicationId

/-- Every application holding an Allocation is in status ALLOCATED. -/
def AllocStatusInv (db : DB) : Prop :=
  ∀ al ∈ db.allocations, statusOf db.applications al.applicationId = some AppStatus.ALLOCATED

/-- Postcondition of the batch loop run over `apps` from accumulator
`(s, db)` with result `r`, when the fault oracle contains only
`markInProgress` faults: fault-free applications end ALLOCATED, or
WAITLISTED with (still) no candidate bed; faulted ones are counted as errors
and reset; applications outside `apps` keep their status. -/
def FoldPost (faults : List Fault) (apps : List Application) (s : RunStats) (db : DB)
    (r : RunStats × DB) : Prop :=
  r.1.errors = s.errors +
    apps.countP (fun a => decide (Fault.markInProgress a.id ∈ faults)) ∧
  r.1.allocated + r.1.waitlisted = s.allocated + s.waitlisted +
    apps.countP (fun a => decide (Fault.markInProgress a.id ∉ faults)) ∧
  BedsLe db.beds r.2.beds ∧
  r.2.rooms = db.rooms ∧
  r.2.blocks = db.blocks ∧
  r.2.applications.map (fun q => q.id) = db.applications.map (fun q => q.id) ∧
  (∀ b ∈ apps,
    (Fault.markInProgress b.id ∈ faults →
      statusOf r.2.applications b.id = some (resetStatusValue b)) ∧
    (Fault.markInProgress b.id ∉ faults →
      statusOf r.2.applications b.id = some AppStatus.ALLOCATED ∨
      (statusOf r.2.applications b.id = some AppStatus.WAITLISTED ∧
        ∀ bd ∈ r.2.beds,
          bedCandidate r.2.rooms r.2.blocks b.preferredHostelsList bd = false))) ∧
  (∀ id', (∀ b ∈ apps, b.id ≠ id') →
    statusOf r.2.applications id' = statusOf db.applications id')

/-! ### Concrete states used by counterexamples and witnesses -/

/-- A store with every table empty. -/
def emptyDB : DB :=
  ⟨[], [], [], [], [], [], [], [], 0⟩

/-- An application with no preferences object. -/
def mkApp (i : Nat) (pc : Option String) (t : Nat) : Application :=
  { id := i, studentId := 100 + i, preferences := none, status := AppStatus.PENDING,
    appliedAt := t, priorityCategory := pc }

/-- The spec's three-request instance: R1 (no priority, t=10:00), R2
(priority set, t=10:05), R3 (no priority, t=09:00), all PENDING. -/
def dbR123 : DB :=
  { emptyDB with applications :=
      [mkApp 1 none 1000, mkApp 2 (some "MERIT") 1005, mkApp 3 none 900] }

/-- Two requests with distinct non-null priority categories; the earlier one
(t=100) has category HANDICAPPED, the later one (t=200) MERIT. -/
def dbTwoCats : DB :=
  { emptyDB with applications :=
      [mkApp 4 (some "HANDICAPPED") 100, mkApp 5 (some "MERIT") 200] }

/-- A waitlist holding a single entry in the hostel-7 bucket with rank 5. -/
def dbScopedEntry : DB :=
  { emptyDB with
      waitlist := [{ applicationId := 9, rank := 5, hostelId := some 7, roomType := none }] }

/-- One PENDING application and no beds at all. -/
def dbOnePendingNoBeds : DB :=
  { emptyDB with applications := [mkApp 1 none 10] }

/-- An application whose first (and only) preferred hostel is hostel 7. -/
def appScoped7 : Application :=
  { id := 11, studentId := 111, preferences := some ⟨some [7], none⟩,
    status := AppStatus.PENDING, appliedAt := 20, priorityCategory := none }

/-- One free bed in an available room of hostel 30, and one PENDING
application. -/
def dbOneBedOneApp : DB :=
  { emptyDB with
      blocks := [⟨20, 30⟩],
      rooms := [⟨10, 20, RoomStatus.AVAILABLE⟩],
      beds := [⟨1, 10, 1, none⟩],
      applications := [mkApp 1 none 10] }

/-! ## Order-theoretic facts about the comparators -/

theorem charListLt_nil_right (a : List Char) : charListLt a [] = false := by
  cases a <;> rfl

theorem charListLt_nil_cons (e : Char) (es : List Char) : charListLt [] (e :: es) = true :=
  rfl

theorem charListLt_cons_cons (x d : Char) (xs ds : List Char) :
    charListLt (x :: xs) (d :: ds) =
      (if x.toNat < d.toNat then true
       else if d.toNat < x.toNat then false
       else charListLt xs ds) :=
  rfl

theorem charListLt_trans {a : List Char} : ∀ {b c : List Char},
    charListLt a b = true → charListLt b c = true → charListLt a c = true := by
  induction a with
  | nil =>
    intro b c h1 h2
    cases b with
    | nil => rw [charListLt_nil_right] at h1; simp at h1
    | cons d ds =>
      cases c with
      | nil => rw [charListLt_nil_right] at h2; simp at h2
      | cons e es => exact charListLt_nil_cons e es
  | cons x xs ih =>
    intro b c h1 h2
    cases b with
    | nil => rw [charListLt_nil_right] at h1; simp at h1
    | cons d ds =>
      cases c with
      | nil => rw [charListLt_nil_right] at h2; simp at h2
      | cons e es =>
        rw [charListLt_cons_cons] at h1 h2 ⊢
        rcases Nat.lt_trichotomy x.toNat d.toNat with hxd | hxd | hxd
        · rcases Nat.lt_trichotomy d.toNat e.toNat with hde | hde | hde
          · rw [if_pos (Nat.lt_trans hxd hde)]
          · rw [if_pos (hde ▸ hxd)]
          · rw [if_neg (Nat.lt_asymm hde), if_pos hde] at h2; simp at h2
        · rw [if_neg (by omega), if_neg (by omega)] at h1
          rcases Nat.lt_trichotomy d.toNat e.toNat with hde | hde | hde
          · rw [if_pos (by omega)]
          · rw [if_neg (by omega), if_neg (by omega)] at h2
            rw [if_neg (by omega), if_neg (by omega)]
            exact ih h1 h2
          · rw [if_neg (Nat.lt_asymm hde), if_pos hde] at h2; simp at h2
        · rw [if_neg (Nat.lt_asymm hxd), if_pos hxd] at h1; simp at h1

theorem charListLt_eq_of_not_lt : ∀ {a b : List Char},
    charListLt a b = false → charListLt b a = false → a = b := by
  intro a
  induction a with
  | nil =>
    intro b h1 _
    cases b with
    | nil => rfl
    | cons d ds => rw [charListLt_nil_cons] at h1; simp at h1
  | cons x xs ih =>
    intro b h1 h2
    cases b with
    | nil => rw [charListLt_nil_cons] at h2; simp at h2
    | cons d ds =>
      rw [charListLt_cons_cons] at h1 h2
      rcases Nat.lt_trichotomy x.toNat d.toNat with h | h | h
      · rw [if_pos h] at h1; simp at h1
      · have hx : x = d := by
          have h' := congrArg Char.ofNat h
          rwa [Char.ofNat_toNat, Char.ofNat_toNat] at h'
        rw [if_neg (by omega), if_neg (by omega)] at h1
        rw [if_neg (by omega), if_neg (by omega)] at h2
        rw [hx, ih h1 h2]
      · rw [if_pos h] at h2; simp at h2

theorem strLt_trans {x y z : String} (h1 : strLt x y = true) (h2 : strLt y z = true) :
    strLt x z = true :=
  charListLt_trans h1 h2

theorem strLt_total_of_ne {x y : String} (h : x ≠ y) :
    strLt x y = true ∨ strLt y x = true := by
  by_cases h1 : strLt x y = true
  · exact Or.inl h1
  · by_cases h2 : strLt y x = true
    · exact Or.inr h2
    · exfalso
      apply h
      have e : x.data = y.data :=
        charListLt_eq_of_not_lt (Bool.eq_false_iff.mpr h1) (Bool.eq_false_iff.mpr h2)
      cases x
      cases y
      exact congrArg String.mk e

theorem prioLt_trans : ∀ {a b c : Option String},
    prioLt a b = true → prioLt b c = true → prioLt a c = true := by
  intro a b c h1 h2
  match a, b, c with
  | none, none, _ => exact Bool.noConfusion h1
  | some _, none, _ => exact Bool.noConfusion h1
  | none, some _, none => exact Bool.noConfusion h2
  | some _, some _, none => exact Bool.noConfusion h2
  | none, some _, some _ => rfl
  | some x, some y, some z => exact strLt_trans h2 h1

instance : IsTrans Application appBefore := by
  constructor
  intro a b c h1 h2
  rcases h1 with h1 | ⟨e1, t1⟩
  · rcases h2 with h2 | ⟨e2, _⟩
    · exact Or.inl (prioLt_trans h1 h2)
    · exact Or.inl (by rw [← e2]; exact h1)
  · rcases h2 with h2 | ⟨e2, t2⟩
    · exact Or.inl (by rw [e1]; exact h2)
    · exact Or.inr ⟨e1.trans e2, Nat.le_trans t1 t2⟩

instance : IsTotal Application appBefore := by
  constructor
  intro a b
  by_cases heq : a.priorityCategory = b.priorityCategory
  · rcases Nat.le_total a.appliedAt b.appliedAt with h | h
    · exact Or.inl (Or.inr ⟨heq, h⟩)
    · exact Or.inr (Or.inr ⟨heq.symm, h⟩)
  · have hlt : prioLt a.priorityCategory b.priorityCategory = true ∨
        prioLt b.priorityCategory a.priorityCategory = true := by
      cases hpa : a.priorityCategory with
      | none =>
        cases hpb : b.priorityCategory with
        | none => rw [hpa, hpb] at heq; exact absurd rfl heq
        | some y => exact Or.inl rfl
      | some x =>
        cases hpb : b.priorityCategory with
        | none => exact Or.inr rfl
        | some y =>
          have hxy : x ≠ y := by
            intro hc
            rw [hpa, hpb, hc] at heq
            exact heq rfl
          rcases strLt_total_of_ne hxy with h | h
          · exact Or.inr h
          · exact Or.inl h
    rcases hlt with h | h
    · exact Or.inl (Or.inl h)
    · exact Or.inr (Or.inl h)

/-! ## C2: batch selection and processing order -/

/-- C2 counterexample.  The claim says the three requests R1 (no priority,
t=1000), R2 (priority, t=1005), R3 (no priority, t=900) are processed in
order R2, R3, R1, and that two requests with distinct non-null categories
are ordered by timestamp.  The code's query (`ORDER BY priority_category
DESC, applied_at ASC` on PostgreSQL, where DESC puts NULLs first) yields
R3, R1, R2 — and orders the two-category instance by category value
descending (MERIT before HANDICAPPED), against their timestamps. -/
theorem C2_counterexample :
    (selectApplications dbR123).map (fun a => a.id) = [3, 1, 2] ∧
      (selectApplications dbR123).map (fun a => a.id) ≠ [2, 3, 1] ∧
      (selectApplications dbTwoCats).map (fun a => a.id) = [5, 4] ∧
      (selectApplications dbTwoCats).map (fun a => a.id) ≠ [4, 5] := by
  decide

/-- C2 amended: `runAllocation` selects exactly the applications with status
PENDING or WAITLISTED and processes them sorted by `priority_category`
descending — which on this store places the requests with NO priority
category first, then non-null categories in descending string order — with
ties broken by submission timestamp ascending; on the spec's concrete
instance the order is R3, R1, R2. -/
theorem C2_ordering (db : DB) :
    (selectApplications db).Perm (db.applications.filter
      (fun a => decide (a.status = AppStatus.PENDING) ||
        decide (a.status = AppStatus.WAITLISTED))) ∧
    (selectApplications db).Pairwise appBefore ∧
    (selectApplications dbR123).map (fun a => a.id) = [3, 1, 2] := by
  refine ⟨List.perm_insertionSort _ _, ?_, by decide⟩
  exact List.sorted_insertionSort appBefore _

/-! ## Candidate selection facts -/

theorem mem_findCandidateBeds {db : DB} {app : Application} {b : Bed}
    (hb : b ∈ findCandidateBeds db app) :
    b ∈ db.beds ∧ bedCandidate db.rooms db.blocks app.preferredHostelsList b = true := by
  unfold findCandidateBeds at hb
  have h1 := List.mem_of_mem_take hb
  have h2 := (List.perm_insertionSort bedIdLE _).mem_iff.mp h1
  exact List.mem_filter.mp h2

theorem bedCandidate_spec {rooms : List Room} {blocks : List Block} {ph : List Nat} {b : Bed}
    (h : bedCandidate rooms blocks ph b = true) :
    b.occupiedBy = none ∧
    ∃ r, rooms.find? (fun r' => decide (r'.id = b.roomId)) = some r ∧
      r.status = RoomStatus.AVAILABLE ∧
      (ph ≠ [] → ∃ blk, blocks.find? (fun blk' => decide (blk'.id = r.blockId)) = some blk ∧
        blk.hostelId ∈ ph) := by
  unfold bedCandidate at h
  rw [Bool.and_eq_true] at h
  obtain ⟨h1, h2⟩ := h
  refine ⟨of_decide_eq_true h1, ?_⟩
  unfold roomMatch at h2
  split at h2
  · simp at h2
  · rename_i r hf
    rw [Bool.and_eq_true] at h2
    obtain ⟨hs, hh⟩ := h2
    refine ⟨r, hf, of_decide_eq_true hs, ?_⟩
    intro hne
    rw [Bool.or_eq_true] at hh
    rcases hh with hemp | hblk
    · exact absurd (List.isEmpty_iff.mp hemp) hne
    · unfold hostelMatch at hblk
      split at hblk
      · simp at hblk
      · rename_i blk hg
        refine ⟨blk, hg, ?_⟩
        simpa using hblk

theorem allocateBed_no_candidates {faults : List Fault} {db : DB} {app : Application} {ab : Nat}
    (h : findCandidateBeds db app = []) : allocateBed faults db app ab = (false, db) := by
  have hx : allocTx db app ab = none := by
    simp [allocTx, lockFirstCandidate, h]
  unfold allocateBed
  split
  · rfl
  · rw [hx]

/-- C9: the candidate query returns at most 10 beds, ordered by bed id
ascending, each unoccupied and in an AVAILABLE room that lies in a preferred
hostel whenever the request names preferred hostels; an empty result is not
an error: `allocateBed` then just returns false (waitlist path), leaving the
store untouched. -/
theorem C9_candidate_selection (db : DB) (app : Application) (faults : List Fault) (ab : Nat) :
    (findCandidateBeds db app).length ≤ 10 ∧
    (findCandidateBeds db app).Pairwise bedIdLE ∧
    (∀ b ∈ findCandidateBeds db app,
      b ∈ db.beds ∧ b.occupiedBy = none ∧
      ∃ r, db.rooms.find? (fun r' => decide (r'.id = b.roomId)) = some r ∧
        r.status = RoomStatus.AVAILABLE ∧
        (app.preferredHostelsList ≠ [] →
          ∃ blk, db.blocks.find? (fun blk' => decide (blk'.id = r.blockId)) = some blk ∧
            blk.hostelId ∈ app.preferredHostelsList)) ∧
    (findCandidateBeds db app = [] → allocateBed faults db app ab = (false, db)) := by
  refine ⟨List.length_take_le _ _,
    List.Pairwise.sublist (List.take_sublist _ _) (List.sorted_insertionSort bedIdLE _),
    ?_, fun h => allocateBed_no_candidates h⟩
  intro b hb
  obtain ⟨hmem, hcand⟩ := mem_findCandidateBeds hb
  obtain ⟨hocc, hroom⟩ := bedCandidate_spec hcand
  exact ⟨hmem, hocc, hroom⟩

theorem preferredHostelsList_roomType_update (a : Application) (rt : Option String) :
    (setRoomType a rt).preferredHostelsList = a.preferredHostelsList := by
  cases hp : a.preferences <;> simp [setRoomType, Application.preferredHostelsList, hp]

/-- C10: a request with a null/absent preferences object, or one whose
preferences lack a `preferredHostels` list, gets NO hostel filter at all
(its candidate predicate is exactly "unoccupied bed in an AVAILABLE room");
such a request is never rejected for its preferences shape, and the desired
room type never restricts candidates for any request. -/
theorem C10_preferences (db : DB) (app : Application)
    (h : app.preferences = none ∨
      ∃ p, app.preferences = some p ∧ p.preferredHostels = none) :
    app.preferredHostelsList = [] ∧
    (∀ b, bedCandidate db.rooms db.blocks app.preferredHostelsList b =
      (decide (b.occupiedBy = none) && roomMatch db.rooms db.blocks [] b.roomId)) ∧
    findCandidateBeds db app =
      ((db.beds.filter (bedCandidate db.rooms db.blocks [])).insertionSort bedIdLE).take 10 ∧
    (∀ (a : Application) (rt : Option String),
      findCandidateBeds db (setRoomType a rt) = findCandidateBeds db a) := by
  have hnil : app.preferredHostelsList = [] := by
    rcases h with h | ⟨p, hp, hph⟩
    · simp [Application.preferredHostelsList, h]
    · simp [Application.preferredHostelsList, hp, hph]
  refine ⟨hnil, ?_, ?_, ?_⟩
  · intro b
    rw [hnil]
    rfl
  · unfold findCandidateBeds
    rw [hnil]
  · intro a rt
    unfold findCandidateBeds
    rw [preferredHostelsList_roomType_update]

/-! ## The allocation transaction -/

theorem allocTx_some {db db' : DB} {app : Application} {ab : Nat}
    (h : allocTx db app ab = some db') :
    ∃ bed, bed ∈ db.beds ∧ bed.occupiedBy = none ∧
      db'.beds = db.beds.map
        (fun b => if b.id = bed.id then { b with occupiedBy := some app.studentId } else b) ∧
      db'.applications = setAppStatus db.applications app.id AppStatus.ALLOCATED ∧
      db'.waitlist = db.waitlist.filter (fun w => decide (w.applicationId ≠ app.id)) ∧
      db'.allocations = db.allocations ++
        [⟨db.nextId, app.id, app.studentId, bed.roomId, bed.id, ab⟩] ∧
      db'.auditLogs = db.auditLogs ++
        [⟨ab, "ALLOCATE", "ALLOCATION", toString db.nextId, some app.id, some bed.id, true⟩] ∧
      db'.notifications = db.notifications ∧
      db'.rooms = db.rooms ∧ db'.blocks = db.blocks ∧ db'.nextId = db.nextId + 1 := by
  unfold allocTx at h
  split at h
  · exact Option.noConfusion h
  · rename_i bed hlock
    obtain ⟨hmem, hcand⟩ := mem_findCandidateBeds (List.mem_of_find?_eq_some hlock)
    have hocc := (bedCandidate_spec hcand).1
    cases Option.some.inj h
    exact ⟨bed, hmem, hocc, rfl, rfl, rfl, rfl, rfl, rfl, rfl, rfl, rfl⟩

theorem allocateBed_run (faults : List Fault) (db : DB) (app : Application) (ab : Nat) :
    (Fault.txAbort app.id ∈ faults ∧ allocateBed faults db app ab = (false, db)) ∨
    (Fault.txAbort app.id ∉ faults ∧ allocTx db app ab = none ∧
      allocateBed faults db app ab = (false, db)) ∨
    (Fault.txAbort app.id ∉ faults ∧ ∃ db', allocTx db app ab = some db' ∧
      allocateBed faults db app ab = (true, sendAllocationNotification faults db' app)) := by
  by_cases hf : Fault.txAbort app.id ∈ faults
  · exact Or.inl ⟨hf, by simp [allocateBed, hf]⟩
  · cases hx : allocTx db app ab with
    | none => exact Or.inr (Or.inl ⟨hf, rfl, by simp [allocateBed, hf, hx]⟩)
    | some db' => exact Or.inr (Or.inr ⟨hf, db', rfl, by simp [allocateBed, hf, hx]⟩)

theorem allocateBed_false_state {faults : List Fault} {db : DB} {app : Application} {ab : Nat}
    (h : (allocateBed faults db app ab).1 = false) : (allocateBed faults db app ab).2 = db := by
  rcases allocateBed_run faults db app ab with ⟨_, he⟩ | ⟨_, _, he⟩ | ⟨_, db', _, he⟩
  · rw [he]
  · rw [he]
  · rw [he] at h
    exact absurd h (by simp)

/-- C6: the transaction is all-or-nothing.  Either `allocateBed` reports
false and the store is byte-for-byte unchanged, or it reports true and the
post-state carries ALL five writes of the transaction: the bed's occupant,
the ALLOCATED status, the waitlist deletion, the new Allocation row and the
audit row.  No other outcome (in particular no partial state) exists. -/
theorem C6_transaction_atomicity (faults : List Fault) (db : DB) (app : Application) (ab : Nat) :
    ((allocateBed faults db app ab).1 = false ∧ (allocateBed faults db app ab).2 = db) ∨
    ((allocateBed faults db app ab).1 = true ∧
      ∃ bed, bed ∈ db.beds ∧ bed.occupiedBy = none ∧
        (allocateBed faults db app ab).2.beds = db.beds.map
          (fun b => if b.id = bed.id then { b with occupiedBy := some app.studentId } else b) ∧
        (allocateBed faults db app ab).2.applications =
          setAppStatus db.applications app.id AppStatus.ALLOCATED ∧
        (allocateBed faults db app ab).2.waitlist =
          db.waitlist.filter (fun w => decide (w.applicationId ≠ app.id)) ∧
        (allocateBed faults db app ab).2.allocations = db.allocations ++
          [⟨db.nextId, app.id, app.studentId, bed.roomId, bed.id, ab⟩] ∧
        (allocateBed faults db app ab).2.auditLogs = db.auditLogs ++
          [⟨ab, "ALLOCATE", "ALLOCATION", toString db.nextId,
            some app.id, some bed.id, true⟩]) := by
  rcases allocateBed_run faults db app ab with ⟨_, he⟩ | ⟨_, _, he⟩ | ⟨_, db', hx, he⟩
  · exact Or.inl ⟨by rw [he], by rw [he]⟩
  · exact Or.inl ⟨by rw [he], by rw [he]⟩
  · obtain ⟨bed, hmem, hocc, hbeds, happs, hwl, hall, haud, hnot, _, _, _⟩ := allocTx_some hx
    refine Or.inr ⟨by rw [he], bed, hmem, hocc, ?_, ?_, ?_, ?_, ?_⟩ <;>
      rw [he] <;> assumption

/-! ## C3: the return-value contract of allocateBed -/

/-- C3: `allocateBed` returns true exactly when the transaction committed
with a bed bound (a new Allocation row for this request was appended); on
false the store is unchanged (no-candidate and transaction-abort look the
same); and a failing allocation notification — `sendEmail` in `email.js`
catches the SMTP failure, logs it and returns false rather than raising —
does not change the returned flag. -/
theorem C3_return_contract (faults : List Fault) (db : DB) (app : Application) (ab : Nat) :
    ((allocateBed faults db app ab).1 = true ↔
      ∃ al, (allocateBed faults db app ab).2.allocations = db.allocations ++ [al] ∧
        al.applicationId = app.id ∧ al.allocatedBy = ab) ∧
    ((allocateBed faults db app ab).1 = false → (allocateBed faults db app ab).2 = db) ∧
    ((allocateBed (Fault.allocNotifyFail app.id :: faults) db app ab).1 =
      (allocateBed faults db app ab).1) := by
  refine ⟨⟨?_, ?_⟩, fun h => allocateBed_false_state h, ?_⟩
  · intro h
    rcases allocateBed_run faults db app ab with ⟨_, he⟩ | ⟨_, _, he⟩ | ⟨_, db', hx, he⟩
    · rw [he] at h; simp at h
    · rw [he] at h; simp at h
    · obtain ⟨bed, _, _, _, _, _, hall, _, _, _, _, _⟩ := allocTx_some hx
      refine ⟨⟨db.nextId, app.id, app.studentId, bed.roomId, bed.id, ab⟩, ?_, rfl, rfl⟩
      rw [he]
      exact hall
  · rintro ⟨al, hall, -, -⟩
    by_contra hne
    have hfalse : (allocateBed faults db app ab).1 = false := by
      cases hb : (allocateBed faults db app ab).1
      · rfl
      · exact absurd hb hne
    have he := allocateBed_false_state hfalse
    rw [he] at hall
    have hlen := congrArg List.length hall
    simp at hlen
  · by_cases hf : Fault.txAbort app.id ∈ faults
    · have hf2 : Fault.txAbort app.id ∈ Fault.allocNotifyFail app.id :: faults :=
        List.mem_cons_of_mem _ hf
      simp [allocateBed, hf, hf2]
    · have hf2 : Fault.txAbort app.id ∉ Fault.allocNotifyFail app.id :: faults := by
        intro hc
        rcases List.mem_cons.mp hc with h | h
        · exact Fault.noConfusion h
        · exact hf h
      cases hx : allocTx db app ab <;> simp [allocateBed, hf, hf2, hx]

/-- C3 witness: on the one-free-bed store, a run whose notification fails
still returns true; and with a transaction abort the state is returned
unchanged (via the theorem). -/
theorem C3_return_contract_witness :
    (allocateBed [Fault.allocNotifyFail 1] dbOneBedOneApp (mkApp 1 none 10) 50).1 = true ∧
    (allocateBed [Fault.txAbort 1] dbOneBedOneApp (mkApp 1 none 10) 50).2 = dbOneBedOneApp := by
  have h := C3_return_contract [Fault.txAbort 1] dbOneBedOneApp (mkApp 1 none 10) 50
  exact ⟨by decide, h.2.1 (by decide)⟩

/-- C9 witness: on the one-free-bed store the candidate list is that bed;
on the bed-less store it is empty and `allocateBed` (via the theorem's last
conjunct, hypothesis discharged by `decide`) reports false with the store
unchanged. -/
theorem C9_candidate_selection_witness :
    findCandidateBeds dbOneBedOneApp (mkApp 1 none 10) = [⟨1, 10, 1, none⟩] ∧
    allocateBed [] dbOnePendingNoBeds (mkApp 1 none 10) 50 = (false, dbOnePendingNoBeds) := by
  refine ⟨by decide, ?_⟩
  exact (C9_candidate_selection dbOnePendingNoBeds (mkApp 1 none 10) [] 50).2.2.2 (by decide)

/-- C10 witness: the preference-less application has no hostel filter and
its candidates are unchanged by any desired room type (theorem instantiated
with the left disjunct discharged by `rfl`). -/
theorem C10_preferences_witness :
    (mkApp 1 none 10).preferredHostelsList = [] ∧
    findCandidateBeds dbOneBedOneApp (setRoomType (mkApp 1 none 10) (some "DELUXE")) =
      findCandidateBeds dbOneBedOneApp (mkApp 1 none 10) := by
  have h := C10_preferences dbOneBedOneApp (mkApp 1 none 10) (Or.inl rfl)
  exact ⟨h.1, h.2.2.2 (mkApp 1 none 10) (some "DELUXE")⟩

/-! ## C4: waitlist rank assignment -/

theorem maxRank_eq_none {l : List WaitlistEntry} (h : maxRank l = none) : l = [] := by
  cases l with
  | nil => rfl
  | cons x xs =>
    unfold maxRank at h
    cases hx : maxRank xs <;> rw [hx] at h <;> exact Option.noConfusion h

theorem maxRank_le {l : List WaitlistEntry} {m : Int} (h : maxRank l = some m) :
    ∀ w ∈ l, w.rank ≤ m := by
  induction l generalizing m with
  | nil => intro w hw; cases hw
  | cons x xs ih =>
    intro w hw
    unfold maxRank at h
    cases hx : maxRank xs with
    | none =>
      rw [hx] at h
      cases Option.some.inj h
      rcases List.mem_cons.mp hw with h' | h'
      · rw [h']
      · rw [maxRank_eq_none hx] at h'
        cases h'
    | some r =>
      rw [hx] at h
      cases Option.some.inj h
      rcases List.mem_cons.mp hw with h' | h'
      · rw [h']; exact le_max_left _ _
      · exact le_trans (ih hx w h') (le_max_right _ _)

theorem addToWaitlist_noFault (db : DB) (app : Application) :
    (addToWaitlist [] db app).1 = true ∧
    (addToWaitlist [] db app).2.waitlist =
      upsertWaitlist db.waitlist app (newRankFor db.waitlist app.preferredHostelsList.head?)
        app.preferredHostelsList.head? app.roomTypeOrNull ∧
    (addToWaitlist [] db app).2.applications =
      setAppStatus db.applications app.id AppStatus.WAITLISTED ∧
    (addToWaitlist [] db app).2.beds = db.beds ∧
    (addToWaitlist [] db app).2.rooms = db.rooms ∧
    (addToWaitlist [] db app).2.blocks = db.blocks ∧
    (addToWaitlist [] db app).2.allocations = db.allocations ∧
    (addToWaitlist [] db app).2.auditLogs = db.auditLogs ∧
    (addToWaitlist [] db app).2.nextId = db.nextId :=
  ⟨rfl, rfl, rfl, rfl, rfl, rfl, rfl, rfl, rfl⟩

theorem rankOf_upsert (wl : List WaitlistEntry) (app : Application) (r : Int)
    (hid : Option Nat) (rt : Option String) :
    rankOf (upsertWaitlist wl app r hid rt) app.id = some r := by
  unfold upsertWaitlist
  split
  · rename_i hany
    unfold rankOf
    induction wl with
    | nil => simp at hany
    | cons w ws ih =>
      by_cases hw : w.applicationId = app.id
      · simp [List.find?, hw]
      · rw [List.any_cons] at hany
        have hws : ws.any (fun w' => decide (w'.applicationId = app.id)) = true := by
          rcases Bool.or_eq_true_iff.mp hany with h' | h'
          · exact absurd (of_decide_eq_true h') hw
          · exact h'
        simpa [List.find?, hw] using ih hws
  · rename_i hany
    have hnone : wl.find? (fun w => decide (w.applicationId = app.id)) = none := by
      rw [List.find?_eq_none]
      intro w hw
      simp only [decide_eq_true_eq]
      have := List.any_eq_false.mp (Bool.not_eq_true _ ▸ hany) w hw
      simpa using this
    unfold rankOf
    rw [List.find?_append, hnone]
    simp [List.find?]

theorem newRankFor_gt (wl : List WaitlistEntry) (hid : Option Nat) :
    ∀ w ∈ bucketScan wl hid, w.rank < newRankFor wl hid := by
  intro w hw
  unfold newRankFor
  cases hx : maxRank (bucketScan wl hid) with
  | none => rw [maxRank_eq_none hx] at hw; cases hw
  | some m =>
    have hle := maxRank_le hx w hw
    show w.rank < m + 1
    omega

theorem newRankFor_empty (wl : List WaitlistEntry) (hid : Option Nat)
    (h : bucketScan wl hid = []) : newRankFor wl hid = 1 := by
  unfold newRankFor
  rw [h]
  rfl

theorem newRankFor_mono (db : DB) (a1 : Application) (h : Nat)
    (hh1 : a1.preferredHostelsList.head? = some h)
    (hfresh : ∀ w ∈ db.waitlist, w.applicationId ≠ a1.id) :
    newRankFor db.waitlist (some h) <
      newRankFor (addToWaitlist [] db a1).2.waitlist (some h) := by
  have hwl : (addToWaitlist [] db a1).2.waitlist =
      upsertWaitlist db.waitlist a1 (newRankFor db.waitlist (some h)) (some h)
        a1.roomTypeOrNull := by
    have := (addToWaitlist_noFault db a1).2.1
    rwa [hh1] at this
  have hany : db.waitlist.any (fun w => decide (w.applicationId = a1.id)) = false := by
    simp only [List.any_eq_false, decide_eq_true_eq]
    exact hfresh
  rw [hwl]
  unfold upsertWaitlist
  rw [if_neg (by simp [hany])]
  have he : (⟨a1.id, newRankFor db.waitlist (some h), some h, a1.roomTypeOrNull⟩ :
      WaitlistEntry) ∈ bucketScan (db.waitlist ++
        [⟨a1.id, newRankFor db.waitlist (some h), some h, a1.roomTypeOrNull⟩]) (some h) := by
    unfold bucketScan
    refine List.mem_filter.mpr ⟨List.mem_append_right _ ?_, by simp⟩
    exact List.mem_singleton.mpr rfl
  exact newRankFor_gt _ _ _ he

/-- C4 counterexample.  In `dbScopedEntry` the unscoped bucket (entries with
no hostel) is EMPTY — the only entry lives in the hostel-7 bucket with rank 5
— so the claim predicts rank 1 for an unscoped request.  The code issues the
max-rank query with an empty where-clause (`hostelId ? { hostelId } : {}`),
scanning ALL entries, and assigns rank 6. -/
theorem C4_counterexample :
    dbScopedEntry.waitlist.filter (fun w => decide (w.hostelId = (none : Option Nat))) = [] ∧
    (mkApp 2 none 10).preferredHostelsList.head? = none ∧
    rankOf (addToWaitlist [] dbScopedEntry (mkApp 2 none 10)).2.waitlist 2 = some 6 ∧
    (6 : Int) ≠ 1 := by
  decide

/-- C4 amended: `addToWaitlist` buckets by the first preferred hostel; the
assigned rank is (max rank of the SCANNED entries) + 1 with default 1, where
the scan is the hostel's bucket for a scoped request but ALL waitlist entries
(empty where-clause) for an unscoped request; the assigned rank strictly
exceeds every scanned rank, is 1 when the scan is empty, and successive
fault-free insertions into one hostel-scoped bucket assign strictly
increasing ranks. -/
theorem C4_rank_assignment :
    (∀ (db : DB) (app : Application),
      (addToWaitlist [] db app).1 = true ∧
      rankOf (addToWaitlist [] db app).2.waitlist app.id =
        some (newRankFor db.waitlist app.preferredHostelsList.head?)) ∧
    (∀ (wl : List WaitlistEntry) (hid : Option Nat),
      bucketScan wl none = wl ∧
      (∀ w ∈ bucketScan wl hid, w.rank < newRankFor wl hid) ∧
      (bucketScan wl hid = [] → newRankFor wl hid = 1)) ∧
    (∀ (db : DB) (a1 : Application) (h : Nat),
      a1.preferredHostelsList.head? = some h →
      (∀ w ∈ db.waitlist, w.applicationId ≠ a1.id) →
      newRankFor db.waitlist (some h) <
        newRankFor (addToWaitlist [] db a1).2.waitlist (some h)) := by
  refine ⟨fun db app => ⟨rfl, ?_⟩,
    fun wl hid => ⟨rfl, newRankFor_gt wl hid, newRankFor_empty wl hid⟩,
    newRankFor_mono⟩
  rw [(addToWaitlist_noFault db app).2.1]
  exact rankOf_upsert _ _ _ _ _

/-- C4 witness: the unscoped request in the counterexample store receives
rank 6 = (global max 5) + 1 via the theorem, and a second scoped insertion
into the hostel-7 bucket strictly increases its rank. -/
theorem C4_rank_assignment_witness :
    rankOf (addToWaitlist [] dbScopedEntry (mkApp 2 none 10)).2.waitlist (mkApp 2 none 10).id =
      some 6 ∧
    newRankFor dbScopedEntry.waitlist (some 7) <
      newRankFor (addToWaitlist [] dbScopedEntry appScoped7).2.waitlist (some 7) := by
  constructor
  · rw [(C4_rank_assignment.1 dbScopedEntry (mkApp 2 none 10)).2]
    decide
  · exact C4_rank_assignment.2.2 dbScopedEntry appScoped7 7 (by decide) (by decide)

/-! ## Table bookkeeping lemmas -/

theorem setAppStatus_ids (apps : List Application) (id : Nat) (st : AppStatus) :
    (setAppStatus apps id st).map (fun a => a.id) = apps.map (fun a => a.id) := by
  unfold setAppStatus
  rw [List.map_map]
  apply List.map_congr_left
  intro a _
  by_cases h : a.id = id <;> simp [h]

theorem statusOf_isSome_iff (apps : List Application) (id : Nat) :
    (statusOf apps id).isSome ↔ id ∈ apps.map (fun a => a.id) := by
  unfold statusOf
  constructor
  · intro h
    cases hf : apps.find? (fun a => decide (a.id = id)) with
    | none => rw [hf] at h; simp at h
    | some a =>
      have h1 := List.mem_of_find?_eq_some hf
      have hp := List.find?_some hf
      have h2 : a.id = id := by simpa using hp
      exact h2 ▸ List.mem_map_of_mem _ h1
  · intro h
    obtain ⟨a, ha, he⟩ := List.mem_map.mp h
    cases hf : apps.find? (fun a => decide (a.id = id)) with
    | some b => rfl
    | none =>
      have hc := List.find?_eq_none.mp hf a ha
      rw [he] at hc
      simp at hc

theorem setAppStatus_pred_comp (id id' : Nat) (st : AppStatus) :
    ((fun a : Application => decide (a.id = id')) ∘
      (fun a : Application => if a.id = id then { a with status := st } else a)) =
      (fun a : Application => decide (a.id = id')) := by
  funext a
  by_cases ha : a.id = id <;> simp [ha]

theorem statusOf_setAppStatus_same (apps : List Application) (id : Nat) (st : AppStatus)
    (h : (statusOf apps id).isSome) : statusOf (setAppStatus apps id st) id = some st := by
  unfold statusOf setAppStatus
  rw [List.find?_map, setAppStatus_pred_comp]
  unfold statusOf at h
  cases hf : apps.find? (fun a => decide (a.id = id)) with
  | none => rw [hf] at h; simp at h
  | some a =>
    have hp := List.find?_some hf
    have ha : a.id = id := by simpa using hp
    simp [ha]

theorem statusOf_setAppStatus_other (apps : List Application) (id id' : Nat) (st : AppStatus)
    (h : id' ≠ id) : statusOf (setAppStatus apps id st) id' = statusOf apps id' := by
  unfold statusOf setAppStatus
  rw [List.find?_map, setAppStatus_pred_comp]
  cases hf : apps.find? (fun a => decide (a.id = id')) with
  | none => rfl
  | some a =>
    have hp := List.find?_some hf
    have ha : a.id = id' := by simpa using hp
    have hne : ¬ a.id = id := by rw [ha]; exact h
    simp [hne]

theorem statusOf_mem_nodup {apps : List Application}
    (hnd : (apps.map (fun a => a.id)).Nodup) {b : Application} (hb : b ∈ apps) :
    statusOf apps b.id = some b.status := by
  induction apps with
  | nil => cases hb
  | cons a rest ih =>
    rcases List.mem_cons.mp hb with hb' | hb'
    · rw [hb']
      unfold statusOf
      rw [List.find?_cons_of_pos _ (by simp)]
      rfl
    · have hne : ¬ a.id = b.id := by
        intro hc
        have hm : a.id ∈ rest.map (fun q => q.id) := hc ▸ List.mem_map_of_mem _ hb'
        exact (List.nodup_cons.mp hnd).1 hm
      unfold statusOf
      rw [List.find?_cons_of_neg _ (by simp [hne])]
      exact ih (List.nodup_cons.mp hnd).2 hb'

theorem mem_right_of_forall₂ {α β : Type} {R : α → β → Prop} :
    ∀ {l : List α} {l' : List β}, List.Forall₂ R l l' → ∀ {b}, b ∈ l' → ∃ a ∈ l, R a b := by
  intro l l' h
  induction h with
  | nil => intro b hb; cases hb
  | cons hr _ ih =>
    intro b hb
    rcases List.mem_cons.mp hb with hb' | hb'
    · exact ⟨_, List.mem_cons_self _ _, hb' ▸ hr⟩
    · obtain ⟨a, ha, har⟩ := ih hb'
      exact ⟨a, List.mem_cons_of_mem _ ha, har⟩

theorem statusOnly_refl (a : Application) : statusOnly a a :=
  ⟨rfl, rfl, rfl, rfl, rfl⟩

theorem statusOnly_trans {a b c : Application} (h1 : statusOnly a b) (h2 : statusOnly b c) :
    statusOnly a c :=
  ⟨h2.1.trans h1.1, h2.2.1.trans h1.2.1, h2.2.2.1.trans h1.2.2.1,
    h2.2.2.2.1.trans h1.2.2.2.1, h2.2.2.2.2.trans h1.2.2.2.2⟩

theorem appsRel_refl (apps : List Application) : AppsRel apps apps :=
  List.forall₂_same.mpr (fun a _ => statusOnly_refl a)

theorem appsRel_trans {a b c : List Application} (h1 : AppsRel a b) (h2 : AppsRel b c) :
    AppsRel a c := by
  unfold AppsRel at *
  induction h1 generalizing c with
  | nil => cases h2; exact List.Forall₂.nil
  | cons hr _ ih =>
    cases h2 with
    | cons hr2 hrest2 => exact List.Forall₂.cons (statusOnly_trans hr hr2) (ih hrest2)

theorem appsRel_setAppStatus (apps : List Application) (id : Nat) (st : AppStatus) :
    AppsRel apps (setAppStatus apps id st) := by
  unfold AppsRel setAppStatus
  induction apps with
  | nil => exact List.Forall₂.nil
  | cons a rest ih =>
    refine List.Forall₂.cons ?_ ih
    dsimp only
    by_cases h : a.id = id
    · rw [if_pos h]
      exact ⟨rfl, rfl, rfl, rfl, rfl⟩
    · rw [if_neg h]
      exact statusOnly_refl a

theorem statusOnly_preferredHostels {a b : Application} (h : statusOnly a b) :
    b.preferredHostelsList = a.preferredHostelsList := by
  unfold Application.preferredHostelsList
  rw [h.2.2.1]

theorem bedLe_refl (b : Bed) : bedLe b b :=
  ⟨rfl, rfl, rfl, fun h => h⟩

theorem bedLe_trans {a b c : Bed} (h1 : bedLe a b) (h2 : bedLe b c) : bedLe a c :=
  ⟨h2.1.trans h1.1, h2.2.1.trans h1.2.1, h2.2.2.1.trans h1.2.2.1,
    fun h => h1.2.2.2 (h2.2.2.2 h)⟩

theorem bedsLe_refl (l : List Bed) : BedsLe l l :=
  List.forall₂_same.mpr (fun b _ => bedLe_refl b)

theorem bedsLe_trans {a b c : List Bed} (h1 : BedsLe a b) (h2 : BedsLe b c) : BedsLe a c := by
  unfold BedsLe at *
  induction h1 generalizing c with
  | nil => cases h2; exact List.Forall₂.nil
  | cons hr _ ih =>
    cases h2 with
    | cons hr2 hrest2 => exact List.Forall₂.cons (bedLe_trans hr hr2) (ih hrest2)

theorem bedsLe_occupy (l : List Bed) (bid sid : Nat) :
    BedsLe l (l.map (fun b => if b.id = bid then { b with occupiedBy := some sid } else b)) := by
  unfold BedsLe
  induction l with
  | nil => exact List.Forall₂.nil
  | cons b rest ih =>
    refine List.Forall₂.cons ?_ ih
    dsimp only
    by_cases h : b.id = bid
    · rw [if_pos h]
      exact ⟨rfl, rfl, rfl, fun hc => Option.noConfusion hc⟩
    · rw [if_neg h]
      exact bedLe_refl b

/-! ## Case analyses of the three operations -/

theorem allocateBed_success_state {faults : List Fault} {db db2 : DB} {app : Application}
    {ab : Nat} (h : allocateBed faults db app ab = (true, db2)) :
    ∃ bed, bed ∈ db.beds ∧ bed.occupiedBy = none ∧
      db2.beds = db.beds.map
        (fun b => if b.id = bed.id then { b with occupiedBy := some app.studentId } else b) ∧
      db2.applications = setAppStatus db.applications app.id AppStatus.ALLOCATED ∧
      db2.waitlist = db.waitlist.filter (fun w => decide (w.applicationId ≠ app.id)) ∧
      db2.allocations = db.allocations ++
        [⟨db.nextId, app.id, app.studentId, bed.roomId, bed.id, ab⟩] ∧
      db2.rooms = db.rooms ∧ db2.blocks = db.blocks := by
  rcases allocateBed_run faults db app ab with ⟨_, he⟩ | ⟨_, _, he⟩ | ⟨_, db', hx, he⟩
  · rw [he] at h
    exact absurd (congrArg Prod.fst h) (by simp)
  · rw [he] at h
    exact absurd (congrArg Prod.fst h) (by simp)
  · rw [he] at h
    have hdb : db2 = sendAllocationNotification faults db' app := (congrArg Prod.snd h).symm
    obtain ⟨bed, hmem, hocc, hbeds, happs, hwl, hall, _, _, hrooms, hblocks, _⟩ :=
      allocTx_some hx
    subst hdb
    exact ⟨bed, hmem, hocc, hbeds, happs, hwl, hall, hrooms, hblocks⟩

theorem addToWaitlist_cases (faults : List Fault) (db : DB) (app : Application) :
    ((addToWaitlist faults db app).2.applications = db.applications ∨
     (addToWaitlist faults db app).2.applications =
       setAppStatus db.applications app.id AppStatus.WAITLISTED) ∧
    ((addToWaitlist faults db app).2.waitlist = db.waitlist ∨
     (addToWaitlist faults db app).2.waitlist =
       upsertWaitlist db.waitlist app
         (newRankFor db.waitlist app.preferredHostelsList.head?)
         app.preferredHostelsList.head? app.roomTypeOrNull) ∧
    (addToWaitlist faults db app).2.beds = db.beds ∧
    (addToWaitlist faults db app).2.rooms = db.rooms ∧
    (addToWaitlist faults db app).2.blocks = db.blocks ∧
    (addToWaitlist faults db app).2.allocations = db.allocations ∧
    (addToWaitlist faults db app).2.auditLogs = db.auditLogs ∧
    (addToWaitlist faults db app).2.nextId = db.nextId := by
  by_cases h1 : Fault.waitlistMaxFail app.id ∈ faults
  · simp [addToWaitlist, h1]
  · by_cases h2 : Fault.waitlistUpsertFail app.id ∈ faults
    · simp [addToWaitlist, h1, h2]
    · by_cases h3 : Fault.waitlistStatusFail app.id ∈ faults
      · simp [addToWaitlist, h1, h2, h3]
      · simp [addToWaitlist, sendWaitlistNotification, h1, h2, h3]

theorem addToWaitlist_no_wl_faults (faults : List Fault) (db : DB) (app : Application)
    (h1 : Fault.waitlistMaxFail app.id ∉ faults)
    (h2 : Fault.waitlistUpsertFail app.id ∉ faults)
    (h3 : Fault.waitlistStatusFail app.id ∉ faults) :
    (addToWaitlist faults db app).1 = true ∧
    (addToWaitlist faults db app).2.applications =
      setAppStatus db.applications app.id AppStatus.WAITLISTED := by
  constructor <;> simp [addToWaitlist, sendWaitlistNotification, h1, h2, h3]

theorem upsertWaitlist_mem {wl : List WaitlistEntry} {app : Application} {r : Int}
    {hid : Option Nat} {rt : Option String} {w : WaitlistEntry}
    (hw : w ∈ upsertWaitlist wl app r hid rt) :
    (∃ w0 ∈ wl, w0.applicationId = w.applicationId) ∨ w.applicationId = app.id := by
  unfold upsertWaitlist at hw
  split at hw
  · obtain ⟨w0, hw0, heq⟩ := List.mem_map.mp hw
    by_cases h : w0.applicationId = app.id
    · right
      rw [← heq, if_pos h]
      exact h
    · left
      refine ⟨w0, hw0, ?_⟩
      rw [← heq, if_neg h]
  · rcases List.mem_append.mp hw with h | h
    · exact Or.inl ⟨w, h, rfl⟩
    · right
      rw [List.mem_singleton.mp h]

theorem processOne_run (faults : List Fault) (ab : Nat) (s : RunStats) (db : DB)
    (a : Application) :
    (Fault.markInProgress a.id ∈ faults ∧
      processOne faults ab (s, db) a =
        ({ s with errors := s.errors + 1 },
         { db with applications := setAppStatus db.applications a.id (resetStatusValue a) })) ∨
    (Fault.markInProgress a.id ∉ faults ∧ ∃ db2,
      allocateBed faults (setIP db a) a ab = (true, db2) ∧
      processOne faults ab (s, db) a = ({ s with allocated := s.allocated + 1 }, db2)) ∨
    (Fault.markInProgress a.id ∉ faults ∧
      allocateBed faults (setIP db a) a ab = (false, setIP db a) ∧ ∃ db3,
      addToWaitlist faults (setIP db a) a = (true, db3) ∧
      processOne faults ab (s, db) a = ({ s with waitlisted := s.waitlisted + 1 }, db3)) ∨
    (Fault.markInProgress a.id ∉ faults ∧
      allocateBed faults (setIP db a) a ab = (false, setIP db a) ∧ ∃ db3,
      addToWaitlist faults (setIP db a) a = (false, db3) ∧
      processOne faults ab (s, db) a =
        ({ s with errors := s.errors + 1 },
         { db3 with
            applications := setAppStatus db3.applications a.id (resetStatusValue a) })) := by
  by_cases hm : Fault.markInProgress a.id ∈ faults
  · exact Or.inl ⟨hm, by simp [processOne, hm]⟩
  · rcases hab : allocateBed faults (setIP db a) a ab with ⟨ok, db2⟩
    cases ok
    · have hdb2 : db2 = setIP db a := by
        have := allocateBed_false_state (by rw [hab] : (allocateBed faults (setIP db a) a ab).1 = false)
        rw [hab] at this
        exact this
      subst hdb2
      rcases haw : addToWaitlist faults (setIP db a) a with ⟨wok, db3⟩
      cases wok
      · refine Or.inr (Or.inr (Or.inr ⟨hm, rfl, db3, rfl, ?_⟩))
        simp [processOne, hm, hab, haw]
      · refine Or.inr (Or.inr (Or.inl ⟨hm, rfl, db3, rfl, ?_⟩))
        simp [processOne, hm, hab, haw]
    · refine Or.inr (Or.inl ⟨hm, db2, rfl, ?_⟩)
      simp [processOne, hm, hab]

/-! ## Candidate monotonicity -/

theorem findCandidateBeds_empty_iff (db : DB) (app : Application) :
    findCandidateBeds db app = [] ↔
      ∀ b ∈ db.beds,
        bedCandidate db.rooms db.blocks app.preferredHostelsList b = false := by
  unfold findCandidateBeds
  constructor
  · intro h b hb
    by_contra hc
    have hc' : bedCandidate db.rooms db.blocks app.preferredHostelsList b = true := by
      cases hx : bedCandidate db.rooms db.blocks app.preferredHostelsList b
      · exact absurd hx hc
      · rfl
    have hmem : b ∈ db.beds.filter
        (bedCandidate db.rooms db.blocks app.preferredHostelsList) :=
      List.mem_filter.mpr ⟨hb, hc'⟩
    have hmem2 : b ∈ (db.beds.filter
        (bedCandidate db.rooms db.blocks app.preferredHostelsList)).insertionSort bedIdLE :=
      (List.perm_insertionSort bedIdLE _).mem_iff.mpr hmem
    rcases List.take_eq_nil_iff.mp h with h10 | hnil
    · exact absurd h10 (by decide)
    · rw [hnil] at hmem2
      cases hmem2
  · intro h
    have hfil : db.beds.filter
        (bedCandidate db.rooms db.blocks app.preferredHostelsList) = [] := by
      rw [List.filter_eq_nil_iff]
      intro b hb
      rw [h b hb]
      simp
    rw [hfil]
    rfl

theorem candidates_empty_mono {db db' : DB} (ph : List Nat)
    (hr : db'.rooms = db.rooms) (hb : db'.blocks = db.blocks)
    (hle : BedsLe db.beds db'.beds)
    (h : ∀ b ∈ db.beds, bedCandidate db.rooms db.blocks ph b = false) :
    ∀ b' ∈ db'.beds, bedCandidate db'.rooms db'.blocks ph b' = false := by
  intro b' hb'
  obtain ⟨b, hbm, hrel⟩ := mem_right_of_forall₂ hle hb'
  by_contra hc
  have hc' : bedCandidate db'.rooms db'.blocks ph b' = true := by
    cases hx : bedCandidate db'.rooms db'.blocks ph b'
    · exact absurd hx hc
    · rfl
  unfold bedCandidate at hc'
  rw [Bool.and_eq_true] at hc'
  obtain ⟨hocc', hroom'⟩ := hc'
  have hocc : b.occupiedBy = none := hrel.2.2.2 (of_decide_eq_true hocc')
  have hcand : bedCandidate db.rooms db.blocks ph b = true := by
    unfold bedCandidate
    rw [Bool.and_eq_true]
    refine ⟨decide_eq_true hocc, ?_⟩
    rw [← hr, ← hb, ← hrel.2.1]
    exact hroom'
  rw [h b hbm] at hcand
  exact Bool.noConfusion hcand

theorem lockFirstCandidate_of_ne_nil {db : DB} {app : Application}
    (h : findCandidateBeds db app ≠ []) :
    ∃ bed, lockFirstCandidate db.beds (findCandidateBeds db app) = some bed := by
  obtain ⟨c, hc⟩ := List.exists_mem_of_ne_nil _ h
  obtain ⟨hcm, hcand⟩ := mem_findCandidateBeds hc
  have hocc : c.occupiedBy = none := (bedCandidate_spec hcand).1
  have hlock : lockQuery db.beds c.id = true := by
    unfold lockQuery
    rw [List.any_eq_true]
    exact ⟨c, hcm, by simp [hocc]⟩
  unfold lockFirstCandidate
  cases hf : (findCandidateBeds db app).find? (fun c' => lockQuery db.beds c'.id) with
  | none =>
    have := List.find?_eq_none.mp hf c hc
    rw [hlock] at this
    exact absurd rfl this
  | some bed => exact ⟨bed, rfl⟩

theorem allocateBed_false_iff_no_candidates {faults : List Fault} {db : DB}
    {app : Application} {ab : Nat} (hf : Fault.txAbort app.id ∉ faults) :
    (allocateBed faults db app ab).1 = false ↔ findCandidateBeds db app = [] := by
  constructor
  · intro h
    by_contra hne
    obtain ⟨bed, hlock⟩ := lockFirstCandidate_of_ne_nil hne
    have hx : ∃ db', allocTx db app ab = some db' := by
      unfold allocTx
      rw [hlock]
      exact ⟨_, rfl⟩
    obtain ⟨db', hx⟩ := hx
    rw [show allocateBed faults db app ab = (true, sendAllocationNotification faults db' app)
      from by simp [allocateBed, hf, hx]] at h
    simp at h
  · intro h
    rw [allocateBed_no_candidates h]

/-! ## C7: mutual exclusion of Allocation and WaitlistEntry -/

theorem mutex_preserved_waitlist (faults : List Fault) (db : DB) (a : Application)
    (wok : Bool) (db3 : DB) (haw : addToWaitlist faults (setIP db a) a = (wok, db3))
    (hmutex : MutexInv db)
    (hna : ∀ al ∈ db.allocations, al.applicationId ≠ a.id) :
    MutexInv db3 ∧ db3.allocations = db.allocations := by
  obtain ⟨_, hwl, _, _, _, hallo, _, _⟩ := addToWaitlist_cases faults (setIP db a) a
  rw [haw] at hwl hallo
  refine ⟨?_, hallo⟩
  intro al hal w hw
  have hal' : al ∈ db.allocations := by
    rw [hallo] at hal
    exact hal
  rcases hwl with hwl | hwl
  · rw [hwl] at hw
    exact hmutex al hal' w hw
  · rw [hwl] at hw
    rcases upsertWaitlist_mem hw with ⟨w0, hw0, he⟩ | he
    · rw [← he]
      exact hmutex al hal' w0 hw0
    · rw [he]
      exact hna al hal'

theorem foldl_mutex (faults : List Fault) (ab : Nat) :
    ∀ (apps : List Application) (s : RunStats) (db : DB),
    MutexInv db →
    (∀ b ∈ apps, ∀ al ∈ db.allocations, al.applicationId ≠ b.id) →
    List.Pairwise (fun p q : Application => p.id ≠ q.id) apps →
    MutexInv (apps.foldl (processOne faults ab) (s, db)).2 := by
  intro apps
  induction apps with
  | nil => intro s db hmutex _ _; exact hmutex
  | cons a rest ih =>
    intro s db hmutex hnoalloc hpw
    rw [List.foldl_cons]
    rcases processOne_run faults ab s db a with ⟨hm, hcase⟩ | ⟨hm, db2, hab, hcase⟩ |
      ⟨hm, hab, db3, haw, hcase⟩ | ⟨hm, hab, db3, haw, hcase⟩ <;> rw [hcase]
    · exact ih _ _ (fun al hal w hw => hmutex al hal w hw)
        (fun b hb al hal => hnoalloc b (List.mem_cons_of_mem a hb) al hal)
        hpw.of_cons
    · obtain ⟨bed, _, _, _, _, hwl, hall, _, _⟩ := allocateBed_success_state hab
      refine ih _ _ ?_ ?_ hpw.of_cons
      · intro al hal w hw
        rw [hall] at hal
        rw [hwl] at hw
        have hw' : w ∈ db.waitlist ∧
            decide (w.applicationId ≠ a.id) = true := List.mem_filter.mp hw
        rcases List.mem_append.mp hal with hold | hnew
        · exact hmutex al hold w hw'.1
        · rw [List.mem_singleton.mp hnew]
          intro hc
          exact (of_decide_eq_true hw'.2) hc.symm
      · intro b hb al hal
        rw [hall] at hal
        rcases List.mem_append.mp hal with hold | hnew
        · exact hnoalloc b (List.mem_cons_of_mem a hb) al hold
        · rw [List.mem_singleton.mp hnew]
          exact List.rel_of_pairwise_cons hpw hb
    · obtain ⟨hm3, hallo⟩ := mutex_preserved_waitlist faults db a true db3 haw hmutex
        (fun al hal => hnoalloc a (List.mem_cons_self a rest) al hal)
      refine ih _ _ hm3 ?_ hpw.of_cons
      intro b hb al hal
      rw [hallo] at hal
      exact hnoalloc b (List.mem_cons_of_mem a hb) al hal
    · obtain ⟨hm3, hallo⟩ := mutex_preserved_waitlist faults db a false db3 haw hmutex
        (fun al hal => hnoalloc a (List.mem_cons_self a rest) al hal)
      refine ih _ _ (fun al hal w hw => hm3 al hal w hw) ?_ hpw.of_cons
      intro b hb al hal
      have hal' : al ∈ db3.allocations := hal
      rw [hallo] at hal'
      exact hnoalloc b (List.mem_cons_of_mem a hb) al hal'

theorem selectApplications_mem {db : DB} {b : Application} (hb : b ∈ selectApplications db) :
    b ∈ db.applications ∧
      (b.status = AppStatus.PENDING ∨ b.status = AppStatus.WAITLISTED) := by
  have hmem := (List.perm_insertionSort appBefore _).mem_iff.mp hb
  obtain ⟨hm, hp⟩ := List.mem_filter.mp hmem
  refine ⟨hm, ?_⟩
  rcases Bool.or_eq_true_iff.mp hp with h | h
  · exact Or.inl (of_decide_eq_true h)
  · exact Or.inr (of_decide_eq_true h)

theorem selectApplications_pairwise {db : DB}
    (hnd : (db.applications.map (fun a => a.id)).Nodup) :
    List.Pairwise (fun p q : Application => p.id ≠ q.id) (selectApplications db) := by
  have hsub : List.Sublist
      ((db.applications.filter
        (fun a => decide (a.status = AppStatus.PENDING) ||
          decide (a.status = AppStatus.WAITLISTED))).map (fun a => a.id))
      (db.applications.map (fun a => a.id)) :=
    (List.filter_sublist _).map _
  have hnd2 := hnd.sublist hsub
  have hperm := (List.perm_insertionSort appBefore
    (db.applications.filter (fun a => decide (a.status = AppStatus.PENDING) ||
      decide (a.status = AppStatus.WAITLISTED)))).map (fun a => a.id)
  have hnd3 : ((selectApplications db).map (fun a => a.id)).Nodup :=
    hperm.nodup_iff.mpr hnd2
  exact List.pairwise_map.mp hnd3

theorem createAuditLog_fields (faults : List Fault) (db : DB) (actor : Nat)
    (action targetType targetId : String) :
    (createAuditLog faults db actor action targetType targetId).applications =
      db.applications ∧
    (createAuditLog faults db actor action targetType targetId).allocations =
      db.allocations ∧
    (createAuditLog faults db actor action targetType targetId).waitlist = db.waitlist ∧
    (createAuditLog faults db actor action targetType targetId).beds = db.beds ∧
    (createAuditLog faults db actor action targetType targetId).rooms = db.rooms ∧
    (createAuditLog faults db actor action targetType targetId).blocks = db.blocks := by
  unfold createAuditLog
  split <;> exact ⟨rfl, rfl, rfl, rfl, rfl, rfl⟩

theorem runAllocation_proj (faults : List Fault) (db : DB) (ab : Nat) :
    (runAllocation faults db ab).1 =
      ((selectApplications db).foldl (processOne faults ab) (⟨0, 0, 0⟩, db)).1 ∧
    (runAllocation faults db ab).2.applications =
      ((selectApplications db).foldl (processOne faults ab) (⟨0, 0, 0⟩, db)).2.applications ∧
    (runAllocation faults db ab).2.allocations =
      ((selectApplications db).foldl (processOne faults ab) (⟨0, 0, 0⟩, db)).2.allocations ∧
    (runAllocation faults db ab).2.waitlist =
      ((selectApplications db).foldl (processOne faults ab) (⟨0, 0, 0⟩, db)).2.waitlist ∧
    (runAllocation faults db ab).2.beds =
      ((selectApplications db).foldl (processOne faults ab) (⟨0, 0, 0⟩, db)).2.beds ∧
    (runAllocation faults db ab).2.rooms =
      ((selectApplications db).foldl (processOne faults ab) (⟨0, 0, 0⟩, db)).2.rooms ∧
    (runAllocation faults db ab).2.blocks =
      ((selectApplications db).foldl (processOne faults ab) (⟨0, 0, 0⟩, db)).2.blocks := by
  obtain ⟨h1, h2, h3, h4, h5, h6⟩ := createAuditLog_fields faults
    ((selectApplications db).foldl (processOne faults ab) (⟨0, 0, 0⟩, db)).2 ab
    "CREATE" "ALLOCATION" "batch"
  exact ⟨rfl, h1, h2, h3, h4, h5, h6⟩

/-- C7: the engine never leaves both an Allocation and a WaitlistEntry for
one request.  First part: a full batch run preserves the mutual-exclusion
invariant on any well-formed store (distinct application ids, every
allocated request in status ALLOCATED), under any injected store faults.
Second part: within the allocation transaction itself, a successful
`allocateBed` deletes every WaitlistEntry of the request in the same atomic
step that creates its Allocation. -/
theorem C7_mutual_exclusion :
    (∀ (faults : List Fault) (db : DB) (ab : Nat),
      (db.applications.map (fun a => a.id)).Nodup →
      AllocStatusInv db → MutexInv db →
      MutexInv (runAllocation faults db ab).2) ∧
    (∀ (faults : List Fault) (db : DB) (app : Application) (ab : Nat) (db2 : DB),
      allocateBed faults db app ab = (true, db2) →
      db2.waitlist = db.waitlist.filter (fun w => decide (w.applicationId ≠ app.id))) := by
  constructor
  · intro faults db ab hnd hstat hmutex
    have hnoalloc : ∀ b ∈ selectApplications db, ∀ al ∈ db.allocations,
        al.applicationId ≠ b.id := by
      intro b hb al hal hceq
      obtain ⟨hbm, hbs⟩ := selectApplications_mem hb
      have h1 := hstat al hal
      rw [hceq] at h1
      have h2 := statusOf_mem_nodup hnd hbm
      have h3 := h1.symm.trans h2
      rcases hbs with hs | hs <;> rw [hs] at h3 <;>
        exact AppStatus.noConfusion (Option.some.inj h3)
    have hfold := foldl_mutex faults ab (selectApplications db) ⟨0, 0, 0⟩ db hmutex
      hnoalloc (selectApplications_pairwise hnd)
    obtain ⟨_, _, halloc, hwl, _, _, _⟩ := runAllocation_proj faults db ab
    intro al hal w hw
    rw [halloc] at hal
    rw [hwl] at hw
    exact hfold al hal w hw
  · intro faults db app ab db2 h
    obtain ⟨bed, _, _, _, _, hwl, _, _, _⟩ := allocateBed_success_state h
    exact hwl

/-- C7 witness: the invariant-preservation theorem applied to the concrete
one-bed store (hypotheses discharged by `decide`). -/
theorem C7_mutual_exclusion_witness :
    MutexInv (runAllocation [] dbOneBedOneApp 50).2 :=
  C7_mutual_exclusion.1 [] dbOneBedOneApp 50 (by decide)
    (fun al hal => absurd hal (List.not_mem_nil al))
    (fun al hal w hw => absurd hal (List.not_mem_nil al))

/-! ## The batch loop under markInProgress-only fault oracles -/

theorem isSome_statusOf_of_ids {apps apps' : List Application}
    (h : apps'.map (fun q => q.id) = apps.map (fun q => q.id)) (id : Nat)
    (hp : (statusOf apps id).isSome) : (statusOf apps' id).isSome := by
  rw [statusOf_isSome_iff, h, ← statusOf_isSome_iff]
  exact hp

theorem countP_mark_cons_mem (faults : List Fault) (a : Application)
    (rest : List Application) (hm : Fault.markInProgress a.id ∈ faults) :
    List.countP (fun x : Application => decide (Fault.markInProgress x.id ∈ faults))
        (a :: rest) =
      List.countP (fun x : Application => decide (Fault.markInProgress x.id ∈ faults))
        rest + 1 :=
  List.countP_cons_of_pos _ _ (decide_eq_true hm)

theorem countP_mark_cons_not_mem (faults : List Fault) (a : Application)
    (rest : List Application) (hm : Fault.markInProgress a.id ∉ faults) :
    List.countP (fun x : Application => decide (Fault.markInProgress x.id ∈ faults))
        (a :: rest) =
      List.countP (fun x : Application => decide (Fault.markInProgress x.id ∈ faults))
        rest :=
  List.countP_cons_of_neg _ _ (by simp [hm])

theorem countP_notmark_cons_mem (faults : List Fault) (a : Application)
    (rest : List Application) (hm : Fault.markInProgress a.id ∈ faults) :
    List.countP (fun x : Application => decide (Fault.markInProgress x.id ∉ faults))
        (a :: rest) =
      List.countP (fun x : Application => decide (Fault.markInProgress x.id ∉ faults))
        rest :=
  List.countP_cons_of_neg _ _ (by simp [hm])

theorem countP_notmark_cons_not_mem (faults : List Fault) (a : Application)
    (rest : List Application) (hm : Fault.markInProgress a.id ∉ faults) :
    List.countP (fun x : Application => decide (Fault.markInProgress x.id ∉ faults))
        (a :: rest) =
      List.countP (fun x : Application => decide (Fault.markInProgress x.id ∉ faults))
        rest + 1 :=
  List.countP_cons_of_pos _ _ (decide_eq_true hm)

theorem foldl_mark_faults (faults : List Fault) (ab : Nat)
    (hshape : ∀ f ∈ faults, ∃ y, f = Fault.markInProgress y) :
    ∀ (apps : List Application) (s : RunStats) (db : DB),
    (∀ b ∈ apps, (statusOf db.applications b.id).isSome) →
    List.Pairwise (fun p q : Application => p.id ≠ q.id) apps →
    FoldPost faults apps s db (apps.foldl (processOne faults ab) (s, db)) := by
  intro apps
  induction apps with
  | nil =>
    intro s db _ _
    refine ⟨by simp, by simp, bedsLe_refl _, rfl, rfl, rfl, ?_, fun id' _ => rfl⟩
    intro b hb
    cases hb
  | cons a rest ih =>
    intro s db hpres hpw
    have htx : Fault.txAbort a.id ∉ faults := by
      intro hc; obtain ⟨y, hy⟩ := hshape _ hc; exact Fault.noConfusion hy
    have hwm : Fault.waitlistMaxFail a.id ∉ faults := by
      intro hc; obtain ⟨y, hy⟩ := hshape _ hc; exact Fault.noConfusion hy
    have hwu : Fault.waitlistUpsertFail a.id ∉ faults := by
      intro hc; obtain ⟨y, hy⟩ := hshape _ hc; exact Fault.noConfusion hy
    have hws : Fault.waitlistStatusFail a.id ∉ faults := by
      intro hc; obtain ⟨y, hy⟩ := hshape _ hc; exact Fault.noConfusion hy
    have hfr : ∀ b ∈ rest, a.id ≠ b.id := fun b hb => List.rel_of_pairwise_cons hpw hb
    have hpresa := hpres a (List.mem_cons_self a rest)
    rw [List.foldl_cons]
    rcases processOne_run faults ab s db a with ⟨hm, hcase⟩ | ⟨hm, db2, hab, hcase⟩ |
      ⟨hm, hab, db3, haw, hcase⟩ | ⟨hm, hab, db3, haw, hcase⟩
    · -- markInProgress fault: error counted, status reset
      rw [hcase]
      have hids1 : (setAppStatus db.applications a.id (resetStatusValue a)).map
          (fun q => q.id) = db.applications.map (fun q => q.id) := setAppStatus_ids _ _ _
      obtain ⟨he, hcnt, hble, hrm, hbk, hids, happs, hframe⟩ :=
        ih { s with errors := s.errors + 1 }
          { db with applications := setAppStatus db.applications a.id (resetStatusValue a) }
          (fun b hb => isSome_statusOf_of_ids hids1 b.id
            (hpres b (List.mem_cons_of_mem a hb)))
          hpw.of_cons
      have hstata : statusOf (setAppStatus db.applications a.id (resetStatusValue a)) a.id =
          some (resetStatusValue a) := statusOf_setAppStatus_same _ _ _ hpresa
      refine ⟨?_, ?_, hble, hrm, hbk, hids.trans hids1, ?_, ?_⟩
      · rw [countP_mark_cons_mem faults a rest hm]
        dsimp only at he
        omega
      · rw [countP_notmark_cons_mem faults a rest hm]
        dsimp only at hcnt
        omega
      · intro b hb
        rcases List.mem_cons.mp hb with hb' | hb'
        · subst hb'
          constructor
          · intro _
            rw [hframe b.id (fun c hc => (hfr c hc).symm)]
            exact hstata
          · intro hc
            exact absurd hm hc
        · exact happs b hb'
      · intro id' hid'
        rw [hframe id' (fun c hc => hid' c (List.mem_cons_of_mem a hc))]
        exact statusOf_setAppStatus_other _ _ _ _ (fun hc => hid' a (List.mem_cons_self a rest) hc.symm)
    · -- allocateBed succeeded: ALLOCATED
      rw [hcase]
      obtain ⟨bed, hbm, hbo, hbeds2, happs2, hwl2, hall2, hrm2, hbk2⟩ :=
        allocateBed_success_state hab
      have hids1 : db2.applications.map (fun q => q.id) =
          db.applications.map (fun q => q.id) := by
        rw [happs2, setAppStatus_ids]
        exact setAppStatus_ids _ _ _
      obtain ⟨he, hcnt, hble, hrm, hbk, hids, happs, hframe⟩ :=
        ih { s with allocated := s.allocated + 1 } db2
          (fun b hb => isSome_statusOf_of_ids hids1 b.id
            (hpres b (List.mem_cons_of_mem a hb)))
          hpw.of_cons
      have hpresIP : (statusOf (setIP db a).applications a.id).isSome :=
        isSome_statusOf_of_ids (setAppStatus_ids _ _ _) a.id hpresa
      have hstata : statusOf db2.applications a.id = some AppStatus.ALLOCATED := by
        rw [happs2]
        exact statusOf_setAppStatus_same _ _ _ hpresIP
      refine ⟨?_, ?_, ?_, hrm.trans hrm2, hbk.trans hbk2, hids.trans hids1, ?_, ?_⟩
      · rw [countP_mark_cons_not_mem faults a rest hm]
        dsimp only at he
        omega
      · rw [countP_notmark_cons_not_mem faults a rest hm]
        dsimp only at hcnt
        omega
      · refine bedsLe_trans ?_ hble
        rw [hbeds2]
        exact bedsLe_occupy db.beds bed.id a.studentId
      · intro b hb
        rcases List.mem_cons.mp hb with hb' | hb'
        · subst hb'
          constructor
          · intro hc
            exact absurd hc hm
          · intro _
            left
            rw [hframe b.id (fun c hc => (hfr c hc).symm)]
            exact hstata
        · exact happs b hb'
      · intro id' hid'
        have hne : id' ≠ a.id := fun hc => hid' a (List.mem_cons_self a rest) hc.symm
        rw [hframe id' (fun c hc => hid' c (List.mem_cons_of_mem a hc))]
        rw [happs2, statusOf_setAppStatus_other _ _ _ _ hne]
        exact statusOf_setAppStatus_other _ _ _ _ hne
    · -- allocateBed failed, waitlisted
      rw [hcase]
      obtain ⟨_, hwl3, hbeds3, hrm3, hbk3, hall3, _, _⟩ :=
        addToWaitlist_cases faults (setIP db a) a
      rw [haw] at hwl3 hbeds3 hrm3 hbk3 hall3
      have happs3 : db3.applications =
          setAppStatus (setIP db a).applications a.id AppStatus.WAITLISTED := by
        have := (addToWaitlist_no_wl_faults faults (setIP db a) a hwm hwu hws).2
        rw [haw] at this
        exact this
      have hids1 : db3.applications.map (fun q => q.id) =
          db.applications.map (fun q => q.id) := by
        rw [happs3, setAppStatus_ids]
        exact setAppStatus_ids _ _ _
      obtain ⟨he, hcnt, hble, hrm, hbk, hids, happs, hframe⟩ :=
        ih { s with waitlisted := s.waitlisted + 1 } db3
          (fun b hb => isSome_statusOf_of_ids hids1 b.id
            (hpres b (List.mem_cons_of_mem a hb)))
          hpw.of_cons
      have hpresIP : (statusOf (setIP db a).applications a.id).isSome :=
        isSome_statusOf_of_ids (setAppStatus_ids _ _ _) a.id hpresa
      have hstata : statusOf db3.applications a.id = some AppStatus.WAITLISTED := by
        rw [happs3]
        exact statusOf_setAppStatus_same _ _ _ hpresIP
      have hnocand : ∀ bd ∈ db3.beds,
          bedCandidate db3.rooms db3.blocks a.preferredHostelsList bd = false := by
        have hempty : findCandidateBeds (setIP db a) a = [] := by
          have hfalse : (allocateBed faults (setIP db a) a ab).1 = false := by rw [hab]
          exact (allocateBed_false_iff_no_candidates htx).mp hfalse
        have hfact := (findCandidateBeds_empty_iff (setIP db a) a).mp hempty
        rw [hbeds3, hrm3, hbk3]
        exact hfact
      refine ⟨?_, ?_, ?_, hrm.trans hrm3, hbk.trans hbk3, hids.trans hids1, ?_, ?_⟩
      · rw [countP_mark_cons_not_mem faults a rest hm]
        dsimp only at he
        omega
      · rw [countP_notmark_cons_not_mem faults a rest hm]
        dsimp only at hcnt
        omega
      · refine bedsLe_trans ?_ hble
        rw [hbeds3]
        exact bedsLe_refl _
      · intro b hb
        rcases List.mem_cons.mp hb with hb' | hb'
        · subst hb'
          constructor
          · intro hc
            exact absurd hc hm
          · intro _
            right
            constructor
            · rw [hframe b.id (fun c hc => (hfr c hc).symm)]
              exact hstata
            · refine candidates_empty_mono b.preferredHostelsList hrm hbk hble hnocand
        · exact happs b hb'
      · intro id' hid'
        have hne : id' ≠ a.id := fun hc => hid' a (List.mem_cons_self a rest) hc.symm
        rw [hframe id' (fun c hc => hid' c (List.mem_cons_of_mem a hc))]
        rw [happs3, statusOf_setAppStatus_other _ _ _ _ hne]
        exact statusOf_setAppStatus_other _ _ _ _ hne
    · -- impossible: addToWaitlist cannot throw under a markInProgress-only oracle
      exfalso
      have := (addToWaitlist_no_wl_faults faults (setIP db a) a hwm hwu hws).1
      rw [haw] at this
      exact Bool.noConfusion this

/-! ## C8: partial-failure isolation -/

theorem countP_id_eq_one {l : List Application} (hnd : (l.map (fun a => a.id)).Nodup)
    {x : Application} (hx : x ∈ l) :
    l.countP (fun a => decide (a.id = x.id)) = 1 := by
  induction l with
  | nil => cases hx
  | cons a rest ih =>
    by_cases hax : a.id = x.id
    · have hstep : List.countP (fun q : Application => decide (q.id = x.id)) (a :: rest) =
          List.countP (fun q : Application => decide (q.id = x.id)) rest + 1 :=
        List.countP_cons_of_pos _ _ (decide_eq_true hax)
      rw [hstep]
      have h0 : rest.countP (fun q => decide (q.id = x.id)) = 0 := by
        rw [List.countP_eq_zero]
        intro b hb hc
        have hbx : b.id = x.id := of_decide_eq_true hc
        have hmem : a.id ∈ rest.map (fun q => q.id) := by
          rw [hax, ← hbx]
          exact List.mem_map_of_mem _ hb
        exact (List.nodup_cons.mp hnd).1 hmem
      rw [h0]
    · have hxr : x ∈ rest := by
        rcases List.mem_cons.mp hx with h | h
        · rw [h] at hax
          exact absurd rfl hax
        · exact h
      have hstep : List.countP (fun q : Application => decide (q.id = x.id)) (a :: rest) =
          List.countP (fun q : Application => decide (q.id = x.id)) rest :=
        List.countP_cons_of_neg _ _ (by simp [hax])
      rw [hstep]
      exact ih (List.nodup_cons.mp hnd).2 hxr

theorem countP_mark_singleton (l : List Application) (x : Application) :
    l.countP (fun a =>
      decide (Fault.markInProgress a.id ∈ [Fault.markInProgress x.id])) =
      l.countP (fun a => decide (a.id = x.id)) := by
  induction l with
  | nil => rfl
  | cons a rest ih =>
    by_cases h : a.id = x.id
    · have h1 : List.countP (fun q : Application =>
          decide (Fault.markInProgress q.id ∈ [Fault.markInProgress x.id])) (a :: rest) =
          List.countP (fun q : Application =>
            decide (Fault.markInProgress q.id ∈ [Fault.markInProgress x.id])) rest + 1 :=
        List.countP_cons_of_pos _ _ (by simp [h])
      have h2 : List.countP (fun q : Application => decide (q.id = x.id)) (a :: rest) =
          List.countP (fun q : Application => decide (q.id = x.id)) rest + 1 :=
        List.countP_cons_of_pos _ _ (decide_eq_true h)
      rw [h1, h2, ih]
    · have h1 : List.countP (fun q : Application =>
          decide (Fault.markInProgress q.id ∈ [Fault.markInProgress x.id])) (a :: rest) =
          List.countP (fun q : Application =>
            decide (Fault.markInProgress q.id ∈ [Fault.markInProgress x.id])) rest :=
        List.countP_cons_of_neg _ _ (by simp [h])
      have h2 : List.countP (fun q : Application => decide (q.id = x.id)) (a :: rest) =
          List.countP (fun q : Application => decide (q.id = x.id)) rest :=
        List.countP_cons_of_neg _ _ (by simp [h])
      rw [h1, h2, ih]

theorem countP_mark_split (faults : List Fault) (l : List Application) :
    l.countP (fun a => decide (Fault.markInProgress a.id ∈ faults)) +
      l.countP (fun a => decide (Fault.markInProgress a.id ∉ faults)) = l.length := by
  induction l with
  | nil => rfl
  | cons a rest ih =>
    by_cases h : Fault.markInProgress a.id ∈ faults
    · rw [countP_mark_cons_mem _ _ _ h, countP_notmark_cons_mem _ _ _ h,
        List.length_cons]
      omega
    · rw [countP_mark_cons_not_mem _ _ _ h, countP_notmark_cons_not_mem _ _ _ h,
        List.length_cons]
      omega

theorem resetStatusValue_of_selected {x : Application}
    (h : x.status = AppStatus.PENDING ∨ x.status = AppStatus.WAITLISTED) :
    resetStatusValue x = x.status := by
  unfold resetStatusValue
  rcases h with h | h <;> rw [h] <;> simp

theorem resetStatusValue_ne_in_progress (x : Application) :
    resetStatusValue x ≠ AppStatus.IN_PROGRESS := by
  unfold resetStatusValue
  split <;> simp

/-- C8: a store error while processing one request (the `IN_PROGRESS` update
throwing for application `x`) is isolated: the run still processes every
other selected request to ALLOCATED or WAITLISTED, reports exactly one
error with the allocated/waitlisted counts covering all other requests, and
resets the failed request to its pre-run status — no selected request ends
the run IN_PROGRESS. -/
theorem C8_partial_failure (db : DB) (ab : Nat) (x : Application)
    (hnd : (db.applications.map (fun a => a.id)).Nodup)
    (hx : x ∈ selectApplications db) :
    (runAllocation [Fault.markInProgress x.id] db ab).1.errors = 1 ∧
    (runAllocation [Fault.markInProgress x.id] db ab).1.allocated +
      (runAllocation [Fault.markInProgress x.id] db ab).1.waitlisted + 1 =
      (selectApplications db).length ∧
    statusOf (runAllocation [Fault.markInProgress x.id] db ab).2.applications x.id =
      some x.status ∧
    (∀ b ∈ selectApplications db, b.id ≠ x.id →
      statusOf (runAllocation [Fault.markInProgress x.id] db ab).2.applications b.id =
        some AppStatus.ALLOCATED ∨
      statusOf (runAllocation [Fault.markInProgress x.id] db ab).2.applications b.id =
        some AppStatus.WAITLISTED) ∧
    (∀ b ∈ selectApplications db,
      statusOf (runAllocation [Fault.markInProgress x.id] db ab).2.applications b.id ≠
        some AppStatus.IN_PROGRESS) := by
  have hshape : ∀ f ∈ [Fault.markInProgress x.id], ∃ y, f = Fault.markInProgress y := by
    intro f hf
    rw [List.mem_singleton.mp hf]
    exact ⟨x.id, rfl⟩
  have hpres : ∀ b ∈ selectApplications db, (statusOf db.applications b.id).isSome := by
    intro b hb
    rw [statusOf_isSome_iff]
    exact List.mem_map_of_mem _ (selectApplications_mem hb).1
  obtain ⟨he, hcnt, _, _, _, _, happs, _⟩ :=
    foldl_mark_faults [Fault.markInProgress x.id] ab hshape
      (selectApplications db) ⟨0, 0, 0⟩ db hpres (selectApplications_pairwise hnd)
  have hone : (selectApplications db).countP
      (fun a => decide (Fault.markInProgress a.id ∈ [Fault.markInProgress x.id])) = 1 := by
    rw [countP_mark_singleton]
    have hndsel : ((selectApplications db).map (fun a => a.id)).Nodup := by
      have hperm := (List.perm_insertionSort appBefore
        (db.applications.filter (fun a => decide (a.status = AppStatus.PENDING) ||
          decide (a.status = AppStatus.WAITLISTED)))).map (fun a => a.id)
      refine hperm.nodup_iff.mpr (hnd.sublist ?_)
      exact (List.filter_sublist _).map _
    exact countP_id_eq_one hndsel hx
  have hsplit := countP_mark_split [Fault.markInProgress x.id] (selectApplications db)
  have hxin : Fault.markInProgress x.id ∈ [Fault.markInProgress x.id] :=
    List.mem_singleton_self _
  obtain ⟨hr1, hr2, _, _, _⟩ := runAllocation_proj [Fault.markInProgress x.id] db ab
  refine ⟨?_, ?_, ?_, ?_, ?_⟩
  · rw [hr1, he, hone]
  · rw [hr1, hcnt]
    rw [hone] at hsplit
    dsimp only
    omega
  · have h1 := (happs x hx).1 hxin
    rw [resetStatusValue_of_selected (selectApplications_mem hx).2] at h1
    rw [hr2]
    exact h1
  · intro b hb hbne
    have hbnm : Fault.markInProgress b.id ∉ [Fault.markInProgress x.id] := by
      intro hc
      have := List.mem_singleton.mp hc
      exact hbne (Fault.markInProgress.inj this)
    rw [hr2]
    rcases (happs b hb).2 hbnm with h | ⟨h, _⟩
    · exact Or.inl h
    · exact Or.inr h
  · intro b hb
    rw [hr2]
    by_cases hbid : b.id = x.id
    · have h1 := (happs x hx).1 hxin
      rw [hbid, h1]
      intro hc
      exact resetStatusValue_ne_in_progress x (Option.some.inj hc)
    · rcases (happs b hb).2 (by
        intro hc
        exact hbid (Fault.markInProgress.inj (List.mem_singleton.mp hc))) with h | ⟨h, _⟩
      · rw [h]
        intro hc
        exact AppStatus.noConfusion (Option.some.inj hc)
      · rw [h]
        intro hc
        exact AppStatus.noConfusion (Option.some.inj hc)

/-- C8 witness: on the one-bed store with its single PENDING request
faulted at the `IN_PROGRESS` update, the run reports one error and leaves
the request PENDING (theorem instantiated, hypotheses by `decide`). -/
theorem C8_partial_failure_witness :
    (runAllocation [Fault.markInProgress 1] dbOneBedOneApp 50).1.errors = 1 ∧
    statusOf (runAllocation [Fault.markInProgress 1] dbOneBedOneApp 50).2.applications 1 =
      some AppStatus.PENDING := by
  have h := C8_partial_failure dbOneBedOneApp 50 (mkApp 1 none 10) (by decide) (by decide)
  exact ⟨h.1, h.2.2.1⟩

/-! ## C5: re-running the batch allocator -/

theorem selectApplications_mem_of {db : DB} {a : Application} (ha : a ∈ db.applications)
    (hs : a.status = AppStatus.PENDING ∨ a.status = AppStatus.WAITLISTED) :
    a ∈ selectApplications db := by
  apply (List.perm_insertionSort appBefore _).mem_iff.mpr
  refine List.mem_filter.mpr ⟨ha, ?_⟩
  rcases hs with h | h <;> simp [h]

theorem processOne_appsRel (faults : List Fault) (ab : Nat) (s : RunStats) (db : DB)
    (a : Application) :
    AppsRel db.applications (processOne faults ab (s, db) a).2.applications := by
  rcases processOne_run faults ab s db a with ⟨_, hc⟩ | ⟨_, db2, hab, hc⟩ |
    ⟨_, _, db3, haw, hc⟩ | ⟨_, _, db3, haw, hc⟩ <;> rw [hc]
  · exact appsRel_setAppStatus _ _ _
  · obtain ⟨_, _, _, _, happs2, _, _, _, _⟩ := allocateBed_success_state hab
    rw [happs2]
    exact appsRel_trans (appsRel_setAppStatus db.applications a.id AppStatus.IN_PROGRESS)
      (appsRel_setAppStatus _ _ _)
  · obtain ⟨happ3, _, _, _, _, _, _, _⟩ := addToWaitlist_cases faults (setIP db a) a
    rw [haw] at happ3
    rcases happ3 with happ3 | happ3 <;> rw [happ3]
    · exact appsRel_setAppStatus _ _ _
    · exact appsRel_trans (appsRel_setAppStatus db.applications a.id AppStatus.IN_PROGRESS)
        (appsRel_setAppStatus _ _ _)
  · obtain ⟨happ3, _, _, _, _, _, _, _⟩ := addToWaitlist_cases faults (setIP db a) a
    rw [haw] at happ3
    have hstep : AppsRel db.applications db3.applications := by
      rcases happ3 with happ3 | happ3 <;> rw [happ3]
      · exact appsRel_setAppStatus _ _ _
      · exact appsRel_trans (appsRel_setAppStatus db.applications a.id AppStatus.IN_PROGRESS)
          (appsRel_setAppStatus _ _ _)
    exact appsRel_trans hstep (appsRel_setAppStatus _ _ _)

theorem foldl_appsRel (faults : List Fault) (ab : Nat) :
    ∀ (apps : List Application) (s : RunStats) (db : DB),
    AppsRel db.applications (apps.foldl (processOne faults ab) (s, db)).2.applications := by
  intro apps
  induction apps with
  | nil => intro s db; exact appsRel_refl _
  | cons a rest ih =>
    intro s db
    rw [List.foldl_cons]
    have h1 := processOne_appsRel faults ab s db a
    rcases hp : processOne faults ab (s, db) a with ⟨s', db'⟩
    rw [hp] at h1
    exact appsRel_trans h1 (ih s' db')

theorem foldl_all_waitlisted (ab : Nat) :
    ∀ (apps : List Application) (s : RunStats) (db : DB),
    (∀ b ∈ apps, ∀ bd ∈ db.beds,
      bedCandidate db.rooms db.blocks b.preferredHostelsList bd = false) →
    (apps.foldl (processOne [] ab) (s, db)).1.allocated = s.allocated ∧
    (apps.foldl (processOne [] ab) (s, db)).1.waitlisted = s.waitlisted + apps.length ∧
    (apps.foldl (processOne [] ab) (s, db)).1.errors = s.errors ∧
    (apps.foldl (processOne [] ab) (s, db)).2.allocations = db.allocations ∧
    (apps.foldl (processOne [] ab) (s, db)).2.beds = db.beds ∧
    (apps.foldl (processOne [] ab) (s, db)).2.rooms = db.rooms ∧
    (apps.foldl (processOne [] ab) (s, db)).2.blocks = db.blocks := by
  intro apps
  induction apps with
  | nil =>
    intro s db _
    exact ⟨rfl, rfl, rfl, rfl, rfl, rfl, rfl⟩
  | cons a rest ih =>
    intro s db hnc
    have hempty : findCandidateBeds (setIP db a) a = [] := by
      refine (findCandidateBeds_empty_iff (setIP db a) a).mpr ?_
      exact hnc a (List.mem_cons_self a rest)
    have hab : allocateBed [] (setIP db a) a ab = (false, setIP db a) :=
      allocateBed_no_candidates hempty
    rcases haw : addToWaitlist [] (setIP db a) a with ⟨wok, db3⟩
    have hwok : wok = true := by
      have h := (addToWaitlist_noFault (setIP db a) a).1
      rw [haw] at h
      exact h
    subst hwok
    obtain ⟨_, _, _, hbeds3, hrm3, hbk3, hall3, _, _⟩ := addToWaitlist_noFault (setIP db a) a
    rw [haw] at hbeds3 hrm3 hbk3 hall3
    have hstep : processOne [] ab (s, db) a = ({ s with waitlisted := s.waitlisted + 1 }, db3) := by
      simp [processOne, hab, haw]
    rw [List.foldl_cons, hstep]
    have hnc3 : ∀ b ∈ rest, ∀ bd ∈ db3.beds,
        bedCandidate db3.rooms db3.blocks b.preferredHostelsList bd = false := by
      intro b hb bd hbd
      rw [hrm3, hbk3]
      refine hnc b (List.mem_cons_of_mem a hb) bd ?_
      rw [hbeds3] at hbd
      exact hbd
    obtain ⟨ha, hw, he, hal, hbd, hrm, hbk⟩ := ih { s with waitlisted := s.waitlisted + 1 } db3 hnc3
    refine ⟨ha, ?_, he, hal.trans hall3, hbd.trans hbeds3, hrm.trans hrm3, hbk.trans hbk3⟩
    rw [hw, List.length_cons]
    dsimp only
    omega

/-- C5 counterexample.  One PENDING request, no beds.  The first run
waitlists it with rank 1.  The second run — with no new requests and no
freed beds — re-waitlists it: it reports waitlisted = 1 (the claim says 0)
and bumps the entry's rank from 1 to 2 (the claim says unchanged). -/
theorem C5_counterexample :
    (runAllocation [] (runAllocation [] dbOnePendingNoBeds 50).2 50).1.waitlisted = 1 ∧
    (1 : Nat) ≠ 0 ∧
    rankOf (runAllocation [] dbOnePendingNoBeds 50).2.waitlist 1 = some 1 ∧
    rankOf (runAllocation [] (runAllocation [] dbOnePendingNoBeds 50).2 50).2.waitlist 1 =
      some 2 ∧
    (some 2 : Option Int) ≠ some 1 := by
  decide

/-- C5 amended: running the batch twice with no new requests and no freed
units: the second run creates no Allocations (allocated = 0, the Allocation
table is unchanged) and reports no errors, but it RE-PROCESSES every request
the first run left waitlisted: the second run reports waitlisted equal to
the number of those requests (not 0) and re-assigns their waitlist ranks
(upsert with a freshly computed max+1 rank) instead of leaving the entries
unchanged. -/
theorem C5_rerun (db : DB) (ab : Nat)
    (hnd : (db.applications.map (fun a => a.id)).Nodup) :
    (runAllocation [] (runAllocation [] db ab).2 ab).1.allocated = 0 ∧
    (runAllocation [] (runAllocation [] db ab).2 ab).1.errors = 0 ∧
    (runAllocation [] (runAllocation [] db ab).2 ab).1.waitlisted =
      (selectApplications (runAllocation [] db ab).2).length ∧
    (runAllocation [] (runAllocation [] db ab).2 ab).2.allocations =
      (runAllocation [] db ab).2.allocations := by
  obtain ⟨hp1s, hp1apps, hp1alloc, hp1wl, hp1beds, hp1rooms, hp1blocks⟩ :=
    runAllocation_proj [] db ab
  have hshape : ∀ f ∈ ([] : List Fault), ∃ y, f = Fault.markInProgress y :=
    fun f hf => absurd hf (List.not_mem_nil f)
  have hpres : ∀ b ∈ selectApplications db, (statusOf db.applications b.id).isSome := by
    intro b hb
    rw [statusOf_isSome_iff]
    exact List.mem_map_of_mem _ (selectApplications_mem hb).1
  obtain ⟨he1, hcnt1, hble1, hrm1, hbk1, hids1, happs1, hframe1⟩ :=
    foldl_mark_faults [] ab hshape (selectApplications db) ⟨0, 0, 0⟩ db hpres
      (selectApplications_pairwise hnd)
  have hrel : AppsRel db.applications (runAllocation [] db ab).2.applications := by
    rw [hp1apps]
    exact foldl_appsRel [] ab (selectApplications db) ⟨0, 0, 0⟩ db
  have hids1' : (runAllocation [] db ab).2.applications.map (fun q => q.id) =
      db.applications.map (fun q => q.id) := by
    rw [hp1apps]
    exact hids1
  have hnd1 : ((runAllocation [] db ab).2.applications.map (fun q => q.id)).Nodup := by
    rw [hids1']
    exact hnd
  have hnocand : ∀ b ∈ selectApplications (runAllocation [] db ab).2,
      ∀ bd ∈ (runAllocation [] db ab).2.beds,
        bedCandidate (runAllocation [] db ab).2.rooms (runAllocation [] db ab).2.blocks
          b.preferredHostelsList bd = false := by
    intro b hb
    obtain ⟨hbm1, hbs1⟩ := selectApplications_mem hb
    obtain ⟨a0, ha0m, hst⟩ := mem_right_of_forall₂ hrel hbm1
    have hstatus_b : statusOf (runAllocation [] db ab).2.applications b.id = some b.status :=
      statusOf_mem_nodup hnd1 hbm1
    rw [hp1apps] at hstatus_b
    by_cases hsel : a0.status = AppStatus.PENDING ∨ a0.status = AppStatus.WAITLISTED
    · have ha0sel : a0 ∈ selectApplications db := selectApplications_mem_of ha0m hsel
      rcases (happs1 a0 ha0sel).2 (List.not_mem_nil _) with h2 | ⟨h2, hcand⟩
      · exfalso
        rw [← hst.1] at h2
        have hcontra := h2.symm.trans hstatus_b
        rcases hbs1 with hs | hs <;> rw [hs] at hcontra <;>
          exact AppStatus.noConfusion (Option.some.inj hcontra)
      · intro bd hbd
        rw [statusOnly_preferredHostels hst, hp1rooms, hp1blocks]
        refine hcand bd ?_
        rw [hp1beds] at hbd
        exact hbd
    · exfalso
      have hnotin : ∀ c ∈ selectApplications db, c.id ≠ a0.id := by
        intro c hc hceq
        have hceq2 : c = a0 :=
          List.inj_on_of_nodup_map hnd (selectApplications_mem hc).1 ha0m hceq
        rw [← hceq2] at hsel
        exact hsel (selectApplications_mem hc).2
      have hfr := hframe1 a0.id hnotin
      have hs0 : statusOf db.applications a0.id = some a0.status :=
        statusOf_mem_nodup hnd ha0m
      rw [hs0] at hfr
      rw [← hst.1] at hfr
      have hcontra := hfr.symm.trans hstatus_b
      have hstat_eq : a0.status = b.status := Option.some.inj hcontra
      rw [← hstat_eq] at hbs1
      exact hsel hbs1
  obtain ⟨ha2, hw2, he2, hal2, _, _, _⟩ :=
    foldl_all_waitlisted ab (selectApplications (runAllocation [] db ab).2) ⟨0, 0, 0⟩
      (runAllocation [] db ab).2 hnocand
  obtain ⟨hq1s, hq1apps, hq1alloc, _, _, _, _⟩ :=
    runAllocation_proj [] (runAllocation [] db ab).2 ab
  refine ⟨?_, ?_, ?_, ?_⟩
  · rw [hq1s, ha2]
  · rw [hq1s, he2]
  · rw [hq1s, hw2]
    dsimp only
    omega
  · rw [hq1alloc, hal2]

/-- C5 witness: the re-run theorem at the concrete one-request store
(Nodup hypothesis by `decide`), combined with the evaluated second-run
statistics. -/
theorem C5_rerun_witness :
    (runAllocation [] (runAllocation [] dbOnePendingNoBeds 50).2 50).1.allocated = 0 ∧
    (runAllocation [] (runAllocation [] dbOnePendingNoBeds 50).2 50).1.waitlisted =
      (selectApplications (runAllocation [] dbOnePendingNoBeds 50).2).length := by
  have h := C5_rerun dbOnePendingNoBeds 50 (by decide)
  exact ⟨h.1, h.2.2.1⟩

end HostelAlloc
